import Mathlib

/-!
Verification development for the lore-creator core of the
novelai-scene-visualizer repository.

Embedding conventions, used uniformly below:

* JavaScript strings are `String`; `toLowerCase` is modelled character-wise
  (`jsLower`), which agrees with JavaScript on the ASCII names, keys and
  template labels this code manipulates.  `trim` is modelled by `jsTrim`
  (drop whitespace from both ends), matching JavaScript `String.prototype.trim`
  on ASCII whitespace.  These primitives are defined on the character list so
  that concrete instances evaluate inside the kernel.
* Entry texts and other multi-line strings are represented by their list of
  lines (the `\n`-split decomposition, a bijective representation of strings
  whose lines are newline-free).  The line-oriented regular expressions of the
  source (`/^Relationships:ANY*(?:\n(?:ws*-ws+ANY*|ws*))*$/m` and friends) are
  modelled by the line predicates they denote; the derivations are documented
  at each definition.
* Fractional similarity scores (1.0 / 0.8 / 0.7) are modelled in `ℚ`; the
  source only ever builds them from decimal literals and compares them, so
  this is exact.
* LLM calls are modelled as oracle-supplied data or functions: each task
  function degrades the oracle output exactly as the source does.
-/

namespace NSV

/-- JavaScript `toLowerCase`, modelled character-wise (exact on ASCII data). -/
def jsLower (s : String) : String := ⟨s.data.map Char.toLower⟩

/-- JavaScript `trim`: drop whitespace characters from both ends. -/
def jsTrim (s : String) : String :=
  ⟨((s.data.dropWhile Char.isWhitespace).reverse.dropWhile Char.isWhitespace).reverse⟩

/-- Decides whether `needle` occurs as a contiguous sublist of the argument. -/
def listHasInfix (needle : List Char) : List Char → Bool
  | [] => needle.isEmpty
  | c :: rest => needle.isPrefixOf (c :: rest) || listHasInfix needle rest

/-- JavaScript `a.includes(b)`: `b` occurs in `a` as a contiguous substring. -/
def jsIncludes (a b : String) : Bool := listHasInfix b.data a.data

/-- Levenshtein edit distance, the recurrence that the source's
`levenshteinDistance` dynamic-programming table `dp[i][j]` tabulates
(cell compares one character of each string and takes
`1 + min(delete, insert, substitute)` on mismatch). -/
def levenshteinDistance : List Char → List Char → Nat
  | [], ys => ys.length
  | xs, [] => xs.length
  | x :: xs, y :: ys =>
    if x = y then levenshteinDistance xs ys
    else 1 + min (levenshteinDistance xs (y :: ys))
            (min (levenshteinDistance (x :: xs) ys) (levenshteinDistance xs ys))
  termination_by xs ys => xs.length + ys.length
  decreasing_by all_goals simp_arith

/-- Source `fuzzyNameScore(a, b)`: 1.0 exact (case-folded, trimmed),
0.8 substring containment, 0.7 edit distance ≤ 2 on strings of length ≤ 20,
else 0; 0 when either side trims to empty. -/
def fuzzyNameScore (a b : String) : ℚ :=
  let al := jsTrim (jsLower a)
  let bl := jsTrim (jsLower b)
  if al = "" || bl = "" then 0
  else if al = bl then 1
  else if jsIncludes al bl || jsIncludes bl al then 4/5
  else if al.length ≤ 20 && bl.length ≤ 20 &&
          levenshteinDistance al.data bl.data ≤ 2 then 7/10
  else 0

theorem levenshteinDistance_comm : ∀ xs ys : List Char,
    levenshteinDistance xs ys = levenshteinDistance ys xs := by
  intro xs
  induction xs with
  | nil =>
    intro ys
    cases ys <;> simp [levenshteinDistance]
  | cons x xs ih =>
    intro ys
    induction ys with
    | nil => simp [levenshteinDistance]
    | cons y ys ih2 =>
      by_cases h : x = y
      · subst h
        simp only [levenshteinDistance, if_pos rfl]
        exact ih ys
      · have h' : ¬ y = x := fun e => h e.symm
        simp only [levenshteinDistance, if_neg h, if_neg h']
        rw [ih (y :: ys), ih2, ih ys, min_left_comm]

/-- Claim C9 (amended): the similarity scorer returns 1.0 on `(a, a)` for
every string `a` whose case-folded, trimmed form is non-empty (whitespace-only
strings score 0 against themselves), and is symmetric on all inputs. -/
theorem fuzzyNameScore_refl_symm :
    (∀ a : String, jsTrim (jsLower a) ≠ "" → fuzzyNameScore a a = 1) ∧
    (∀ a b : String, fuzzyNameScore a b = fuzzyNameScore b a) := by
  constructor
  · intro a h
    simp [fuzzyNameScore, h]
  · intro a b
    simp only [fuzzyNameScore]
    generalize jsTrim (jsLower a) = al
    generalize jsTrim (jsLower b) = bl
    rw [levenshteinDistance_comm]
    simp only [show (bl = al) ↔ (al = bl) from eq_comm,
      Bool.or_comm (decide (bl = "")) (decide (al = "")),
      Bool.or_comm (jsIncludes bl al) (jsIncludes al bl),
      Bool.and_comm (decide (bl.length ≤ 20)) (decide (al.length ≤ 20))]

/-- Counterexample to claim C9 as stated: `" "` is a non-empty string, yet
the scorer gives `similarity(" ", " ") = 0`, not 1.0 (both sides trim to
empty, hitting the empty-guard branch). -/
theorem fuzzyNameScore_blank_not_one :
    (" " : String) ≠ "" ∧ fuzzyNameScore " " " " = 0 ∧ fuzzyNameScore " " " " ≠ 1 := by
  refine ⟨by decide, by decide, by decide⟩

/-- Witness for `fuzzyNameScore_refl_symm` at concrete inputs. -/
theorem fuzzyNameScore_refl_symm_witness :
    fuzzyNameScore "Bob" "Bob" = 1 ∧
    fuzzyNameScore "Alex" "Lexa" = fuzzyNameScore "Lexa" "Alex" :=
  ⟨fuzzyNameScore_refl_symm.1 "Bob" (by decide),
   fuzzyNameScore_refl_symm.2 "Alex" "Lexa"⟩

/-! ## Hybrid provider wrapper (C3)

The source's `createHybridProviders(primaryFn, secondaryFn)` closes over two
mutable variables, `secondaryAlive` and `failCount`.  Each call routed to the
wrapped secondary either succeeds (state untouched) or throws
(`failCount++`; when `failCount >= 2` the secondary is disabled).  Once
`secondaryAlive` is false the wrapper forwards to the primary without touching
either variable.  `isHybrid()` reads `secondaryAlive`.  The state machine
below is that closure state; a call's outcome (`true` = the secondary call
throws) is the only input that affects it. -/

/-- Closure state of `createHybridProviders`. -/
structure HybridState where
  secondaryAlive : Bool
  failCount : Nat
deriving Repr, DecidableEq

/-- Initial closure state: `secondaryAlive = !!secondaryFn`, `failCount = 0`. -/
def createHybridProviders (hasSecondary : Bool) : HybridState :=
  ⟨hasSecondary, 0⟩

/-- Effect of one call through the wrapped secondary.  `secondaryThrows` is
whether the underlying secondary call would throw.  If the secondary is
already disabled the call goes straight to the primary and the state is
untouched; on a throw the fail counter increments and, at 2, the secondary is
permanently disabled. -/
def secondaryCall (s : HybridState) (secondaryThrows : Bool) : HybridState :=
  if !s.secondaryAlive then s
  else if secondaryThrows then
    let fc := s.failCount + 1
    { secondaryAlive := decide (fc < 2), failCount := fc }
  else s

/-- Runs a sequence of wrapped-secondary calls from a given state. -/
def runSecondaryCalls (s : HybridState) (outcomes : List Bool) : HybridState :=
  outcomes.foldl secondaryCall s

/-- Source `isHybrid()`. -/
def isHybrid (s : HybridState) : Bool := s.secondaryAlive

/-- Spec-side predicate for C3's trigger: the outcome sequence contains two
consecutive failures. -/
def hasTwoConsecutiveFailures : List Bool → Bool
  | [] => false
  | true :: true :: _ => true
  | _ :: rest => hasTwoConsecutiveFailures rest

theorem runSecondaryCalls_dead (outcomes : List Bool) (n : Nat) :
    runSecondaryCalls ⟨false, n⟩ outcomes = ⟨false, n⟩ := by
  induction outcomes with
  | nil => rfl
  | cons b rest ih => simpa [runSecondaryCalls, secondaryCall] using ih

theorem runSecondaryCalls_alive (outcomes : List Bool) :
    ∀ n : Nat, n < 2 →
      (runSecondaryCalls ⟨true, n⟩ outcomes).secondaryAlive
        = decide (n + outcomes.count true < 2) := by
  induction outcomes with
  | nil =>
    intro n h
    simp [runSecondaryCalls, h]
  | cons b rest ih =>
    intro n h
    cases b with
    | false =>
      simpa [runSecondaryCalls, secondaryCall, List.count_cons] using ih n h
    | true =>
      simp only [runSecondaryCalls, List.foldl_cons]
      have hstep : secondaryCall ⟨true, n⟩ true = ⟨decide (n + 1 < 2), n + 1⟩ := by
        simp [secondaryCall]
      rw [hstep]
      by_cases h1 : n + 1 < 2
      · rw [decide_eq_true h1]
        have h2 := ih (n + 1) h1
        simp only [runSecondaryCalls] at h2
        rw [h2]
        exact decide_eq_decide.mpr (by simp [List.count_cons]; omega)
      · rw [decide_eq_false h1]
        have hd := runSecondaryCalls_dead rest (n + 1)
        simp only [runSecondaryCalls] at hd
        rw [hd]
        have hc : ¬ n + (true :: rest).count true < 2 := by
          simp [List.count_cons]
          omega
        simp [List.count_cons]
        omega

/-- Claim C3 (amended): starting from a live secondary, the wrapper's
`isHybrid()` is false exactly when at least 2 wrapped-secondary calls have
failed so far — the 2 failures need not be consecutive (the counter never
resets on success), and once the threshold is reached the formula shows the
state is permanently primary-only (appending further outcomes, successful or
not, keeps the count at ≥ 2). -/
theorem isHybrid_iff_fewer_than_two_failures (outcomes : List Bool) :
    isHybrid (runSecondaryCalls (createHybridProviders true) outcomes)
      = decide (outcomes.count true < 2) := by
  simpa [isHybrid, createHybridProviders] using
    runSecondaryCalls_alive outcomes 0 (by omega)

/-- Counterexample to claim C3 as stated: the outcome sequence
fail–success–fail contains no two consecutive failures, yet the wrapper
disables the secondary (`isHybrid()` becomes false) because the counter is
cumulative. -/
theorem hybrid_disabled_without_consecutive_failures :
    hasTwoConsecutiveFailures [true, false, true] = false ∧
    isHybrid (runSecondaryCalls (createHybridProviders true)
      [true, false, true]) = false := by
  constructor
  · rfl
  · rfl

/-! ## JSON recovery (C2)

`recoverJSON(raw)` first runs `raw.match(/\x7b[\s\S]*\x7d/)`: the leftmost,
greedy match runs from the first `\x7b` to the last `\x7d` of the string and
exists exactly when some `\x7d` appears strictly after the first `\x7b`
(`braceSpan` below).  It then tries `JSON.parse` on the span; on failure it
appends one `"` if the span's quote count is odd, then one `]` per unmatched
`[`, then one `\x7d` per unmatched `\x7b` (a negative surplus appends
nothing, like the source's `for` loop), and re-parses once.

`JSON.parse` is modelled by `parseJSON`: a JSON text is optional whitespace,
one value, optional whitespace.  Numbers are kept as their lexeme (both sides
of every comparison below go through this same parser, so the representation
of numbers is never observable); object members are kept as the parsed
key/value list; `\uXXXX` escapes are combined over surrogate pairs, a lone
surrogate (representable in JavaScript's UTF-16 strings but not in a Unicode
scalar) degrading to U+FFFD. -/

/-- Parsed JSON value. -/
inductive Json where
  | null : Json
  | bool (b : Bool) : Json
  | num (lexeme : String) : Json
  | str (s : String) : Json
  | arr (elems : List Json) : Json
  | obj (members : List (String × Json)) : Json

/-- JSON insignificant whitespace (ECMA-404): space, tab, line feed, return. -/
def isJsonWs (c : Char) : Bool :=
  c = ' ' || c = '\t' || c = '\n' || c = '\r'

/-- Drops leading JSON whitespace. -/
def skipWs (cs : List Char) : List Char := cs.dropWhile isJsonWs

/-- Value of one hexadecimal digit. -/
def hexVal (c : Char) : Option Nat :=
  if '0' ≤ c ∧ c ≤ '9' then some (c.toNat - '0'.toNat)
  else if 'a' ≤ c ∧ c ≤ 'f' then some (c.toNat - 'a'.toNat + 10)
  else if 'A' ≤ c ∧ c ≤ 'F' then some (c.toNat - 'A'.toNat + 10)
  else none

/-- Reads four hex digits as a code unit. -/
def hex4 : List Char → Option (Nat × List Char)
  | a :: b :: c :: d :: rest =>
    match hexVal a, hexVal b, hexVal c, hexVal d with
    | some x, some y, some z, some w => some (((x * 16 + y) * 16 + z) * 16 + w, rest)
    | _, _, _, _ => none
  | _ => none

/-- Parses the body of a JSON string after the opening quote; returns the
decoded characters and the remaining input after the closing quote. -/
def parseStringBody : Nat → List Char → Option (List Char × List Char)
  | 0, _ => none
  | _ + 1, [] => none
  | fuel + 1, c :: rest =>
    if c = '"' then some ([], rest)
    else if c = '\\' then
      match rest with
      | [] => none
      | e :: rest2 =>
        let simpleEsc : Option Char :=
          if e = '"' then some '"'
          else if e = '\\' then some '\\'
          else if e = '/' then some '/'
          else if e = 'b' then some (Char.ofNat 8)
          else if e = 'f' then some (Char.ofNat 12)
          else if e = 'n' then some '\n'
          else if e = 'r' then some '\r'
          else if e = 't' then some '\t'
          else none
        match simpleEsc with
        | some ch =>
          (parseStringBody fuel rest2).map (fun p => (ch :: p.1, p.2))
        | none =>
          if e = 'u' then
            match hex4 rest2 with
            | none => none
            | some (code, rest3) =>
              if 0xD800 ≤ code ∧ code ≤ 0xDBFF then
                match rest3 with
                | '\\' :: 'u' :: rest4 =>
                  match hex4 rest4 with
                  | some (low, rest5) =>
                    if 0xDC00 ≤ low ∧ low ≤ 0xDFFF then
                      let combined := 0x10000 + (code - 0xD800) * 0x400 + (low - 0xDC00)
                      (parseStringBody fuel rest5).map
                        (fun p => (Char.ofNat combined :: p.1, p.2))
                    else
                      (parseStringBody fuel rest3).map
                        (fun p => (Char.ofNat 0xFFFD :: p.1, p.2))
                  | none =>
                    (parseStringBody fuel rest3).map
                      (fun p => (Char.ofNat 0xFFFD :: p.1, p.2))
                | _ =>
                  (parseStringBody fuel rest3).map
                    (fun p => (Char.ofNat 0xFFFD :: p.1, p.2))
              else if 0xDC00 ≤ code ∧ code ≤ 0xDFFF then
                (parseStringBody fuel rest3).map
                  (fun p => (Char.ofNat 0xFFFD :: p.1, p.2))
              else
                (parseStringBody fuel rest3).map
                  (fun p => (Char.ofNat code :: p.1, p.2))
          else none
    else if c.toNat < 0x20 then none
    else (parseStringBody fuel rest).map (fun p => (c :: p.1, p.2))

/-- Decimal digit test. -/
def isDigitChar (c : Char) : Bool := '0' ≤ c && c ≤ '9'

/-- Parses a JSON number lexeme: `-? (0 | [1-9][0-9]*) (. [0-9]+)? ([eE][+-]?[0-9]+)?`. -/
def parseNumberLexeme (cs : List Char) : Option (List Char × List Char) :=
  let (sign, cs1) :=
    match cs with
    | '-' :: t => (['-'], t)
    | _ => (([] : List Char), cs)
  match cs1 with
  | [] => none
  | d :: _ =>
    if ¬ isDigitChar d then none
    else
      let intPart :=
        if d = '0' then ['0'] else cs1.takeWhile isDigitChar
      let cs2 := cs1.drop intPart.length
      let (fracPart, cs3) :=
        match cs2 with
        | '.' :: t =>
          let ds := t.takeWhile isDigitChar
          if ds.isEmpty then (([] : List Char), cs2) else ('.' :: ds, t.drop ds.length)
        | _ => (([] : List Char), cs2)
      if fracPart.isEmpty ∧ cs2 ≠ cs3 then none
      else
        match cs3 with
        | e :: t =>
          if e = 'e' ∨ e = 'E' then
            let (es, t2) :=
              match t with
              | '+' :: u => (['+'], u)
              | '-' :: u => (['-'], u)
              | _ => (([] : List Char), t)
            let ds := t2.takeWhile isDigitChar
            if ds.isEmpty then none
            else some (sign ++ intPart ++ fracPart ++ e :: es ++ ds, t2.drop ds.length)
          else some (sign ++ intPart ++ fracPart, cs3)
        | [] => some (sign ++ intPart ++ fracPart, cs3)

/-- Parser mode: a JSON value, an object member list (positioned at a key),
or an array element list (positioned at an element). -/
inductive ParseMode where
  | value : ParseMode
  | members : ParseMode
  | elems : ParseMode

/-- Recursive JSON parser, structurally recursive on a fuel bound (one unit of
fuel per nesting step; the top level supplies input length + 1, which always
suffices because every nesting step consumes an opening token).  In `value`
mode the input must already start at the value; list modes are entered after
the opening bracket and any following whitespace, with the empty collection
handled before the first list step. -/
def parseStep : ParseMode → Nat → List Char → Option (Json × List Char)
  | _, 0, _ => none
  | .value, fuel + 1, cs =>
    match cs with
    | [] => none
    | c :: rest =>
      if c = '{' then
        match skipWs rest with
        | '}' :: rest2 => some (Json.obj [], rest2)
        | cs2 => parseStep .members fuel cs2
      else if c = '[' then
        match skipWs rest with
        | ']' :: rest2 => some (Json.arr [], rest2)
        | cs2 => parseStep .elems fuel cs2
      else if c = '"' then
        (parseStringBody (rest.length + 1) rest).map (fun p => (Json.str ⟨p.1⟩, p.2))
      else if List.isPrefixOf ['n', 'u', 'l', 'l'] cs then some (Json.null, cs.drop 4)
      else if List.isPrefixOf ['t', 'r', 'u', 'e'] cs then some (Json.bool true, cs.drop 4)
      else if List.isPrefixOf ['f', 'a', 'l', 's', 'e'] cs then some (Json.bool false, cs.drop 5)
      else
        (parseNumberLexeme cs).map (fun p => (Json.num ⟨p.1⟩, p.2))
  | .members, fuel + 1, cs =>
    match cs with
    | '"' :: rest =>
      match parseStringBody (rest.length + 1) rest with
      | none => none
      | some (key, rest2) =>
        match skipWs rest2 with
        | ':' :: rest3 =>
          match parseStep .value fuel (skipWs rest3) with
          | none => none
          | some (v, rest4) =>
            match skipWs rest4 with
            | ',' :: rest5 =>
              (parseStep .members fuel (skipWs rest5)).bind (fun p =>
                match p.1 with
                | Json.obj ms => some (Json.obj ((⟨key⟩, v) :: ms), p.2)
                | _ => none)
            | '}' :: rest5 => some (Json.obj [(⟨key⟩, v)], rest5)
            | _ => none
        | _ => none
    | _ => none
  | .elems, fuel + 1, cs =>
    match parseStep .value fuel cs with
    | none => none
    | some (v, rest) =>
      match skipWs rest with
      | ',' :: rest2 =>
        (parseStep .elems fuel (skipWs rest2)).bind (fun p =>
          match p.1 with
          | Json.arr vs => some (Json.arr (v :: vs), p.2)
          | _ => none)
      | ']' :: rest2 => some (Json.arr [v], rest2)
      | _ => none

/-- Model of `JSON.parse` on a character list: optional whitespace, one value,
optional whitespace, end of input. -/
def parseJSONList (cs : List Char) : Option Json :=
  match parseStep .value (cs.length + 1) (skipWs cs) with
  | some (v, rest) => if skipWs rest = [] then some v else none
  | none => none

/-- Model of `JSON.parse` on a string. -/
def parseJSON (s : String) : Option Json := parseJSONList s.data

/-- Model of `raw.match(/\x7b[\s\S]*\x7d/)`: the span from the first `\x7b` to
the last `\x7d`, when the latter lies strictly after the former. -/
def braceSpan (cs : List Char) : Option (List Char) :=
  match cs.findIdx? (· = '{'), cs.reverse.findIdx? (· = '}') with
  | some i, some jr =>
    let j := cs.length - 1 - jr
    if i < j then some ((cs.drop i).take (j - i + 1)) else none
  | _, _ => none

/-- Source `recoverJSON`: brace-span extraction, direct parse, then one
balance-and-retry round (append a quote on odd quote count, then the missing
`]`s, then the missing `\x7d`s). -/
def recoverJSON (raw : String) : Option Json :=
  match braceSpan raw.data with
  | none => none
  | some jsonStr =>
    match parseJSONList jsonStr with
    | some v => some v
    | none =>
      let openBraces := List.count '{' jsonStr
      let closeBraces := List.count '}' jsonStr
      let openBrackets := List.count '[' jsonStr
      let closeBrackets := List.count ']' jsonStr
      let quoteCount := List.count '"' jsonStr
      let s1 := if quoteCount % 2 ≠ 0 then jsonStr ++ ['"'] else jsonStr
      let s2 := s1 ++ List.replicate (openBrackets - closeBrackets) ']'
      let s3 := s2 ++ List.replicate (openBraces - closeBraces) '}'
      parseJSONList s3

theorem braceSpan_full (cs : List Char) (h1 : cs.head? = some '{')
    (h2 : cs.getLast? = some '}') : braceSpan cs = some cs := by
  cases cs with
  | nil => simp at h1
  | cons c t =>
    have hc : c = '{' := by simpa using h1
    subst hc
    have hne : t ≠ [] := by
      intro he
      subst he
      simp at h2
    have hrev : ('{' :: t).reverse.head? = some '}' := by
      rw [List.head?_reverse]
      exact h2
    obtain ⟨r, hr⟩ : ∃ r, ('{' :: t).reverse = '}' :: r := by
      cases hrevl : ('{' :: t).reverse with
      | nil => simp [hrevl] at hrev
      | cons a r =>
        rw [hrevl] at hrev
        simp at hrev
        exact ⟨r, by rw [hrev]⟩
    have hpos : 1 ≤ t.length := by
      cases t with
      | nil => exact absurd rfl hne
      | cons a u => simp
    simp only [braceSpan]
    rw [hr]
    simp [List.findIdx?_cons, hpos, Nat.pos_iff_ne_zero]
    exact hne

theorem findIdx?_append_cons {α : Type} (p : α → Bool) :
    ∀ (P : List α) (l : α) (R : List α), (∀ x ∈ P, p x = false) → p l = true →
      List.findIdx? p (P ++ l :: R) = some P.length := by
  intro P
  induction P with
  | nil =>
    intro l R _ hl
    simp [List.findIdx?_cons, hl]
  | cons a P ih =>
    intro l R hP hl
    have ha : p a = false := hP a (by simp)
    simp only [List.cons_append, List.findIdx?_cons, ha, Bool.false_eq_true, if_false]
    rw [List.findIdx?_succ, ih l R (fun x hx => hP x (by simp [hx])) hl]
    simp

theorem jsonWs_not_brace {c : Char} (h : isJsonWs c = true) : c ≠ '{' ∧ c ≠ '}' := by
  constructor <;> intro he <;> subst he <;> exact absurd h (by decide)

theorem braceSpan_padded (w1 core w2 : List Char)
    (hw1 : ∀ c ∈ w1, isJsonWs c = true) (hw2 : ∀ c ∈ w2, isJsonWs c = true)
    (h1 : core.head? = some '{') (h2 : core.getLast? = some '}') :
    braceSpan (w1 ++ core ++ w2) = some core := by
  cases core with
  | nil => simp at h1
  | cons c t =>
    have hc : c = '{' := by simpa using h1
    subst hc
    have ht : t ≠ [] := by
      intro he
      subst he
      simp at h2
    have hlp : 0 < t.length := List.length_pos.mpr ht
    obtain ⟨u, hu⟩ : ∃ u, ('{' :: t).reverse = '}' :: u := by
      have hrev : ('{' :: t).reverse.head? = some '}' := by
        rw [List.head?_reverse]
        exact h2
      cases hh : ('{' :: t).reverse with
      | nil => rw [hh] at hrev; simp at hrev
      | cons a r =>
        rw [hh] at hrev
        simp at hrev
        exact ⟨r, by rw [hrev]⟩
    have hfind1 : List.findIdx? (fun c => decide (c = '{')) (w1 ++ ('{' :: t) ++ w2)
        = some w1.length := by
      rw [show w1 ++ ('{' :: t) ++ w2 = w1 ++ '{' :: (t ++ w2) by simp]
      exact findIdx?_append_cons _ w1 '{' (t ++ w2)
        (fun x hx => decide_eq_false ((jsonWs_not_brace (hw1 x hx)).1)) (by simp)
    have hfind2 : List.findIdx? (fun c => decide (c = '}'))
        (w1 ++ ('{' :: t) ++ w2).reverse = some w2.length := by
      have hrw : (w1 ++ ('{' :: t) ++ w2).reverse
          = w2.reverse ++ '}' :: (u ++ w1.reverse) := by
        rw [show (w1 ++ ('{' :: t) ++ w2).reverse
            = w2.reverse ++ (('{' :: t).reverse ++ w1.reverse) by simp, hu]
        simp
      rw [hrw]
      rw [findIdx?_append_cons _ w2.reverse '}' (u ++ w1.reverse)
        (fun x hx =>
          decide_eq_false ((jsonWs_not_brace (hw2 x (List.mem_reverse.mp hx))).2))
        (by simp)]
      rw [List.length_reverse]
    unfold braceSpan
    rw [hfind1, hfind2]
    have hcond : w1.length < (w1 ++ ('{' :: t) ++ w2).length - 1 - w2.length := by
      simp only [List.length_append, List.length_cons]
      omega
    show (if w1.length < (w1 ++ ('{' :: t) ++ w2).length - 1 - w2.length then
        some (List.take ((w1 ++ ('{' :: t) ++ w2).length - 1 - w2.length
            - w1.length + 1)
          (List.drop w1.length (w1 ++ ('{' :: t) ++ w2)))
      else none) = some ('{' :: t)
    rw [if_pos hcond]
    have hdrop : (w1 ++ ('{' :: t) ++ w2).drop w1.length = ('{' :: t) ++ w2 := by
      rw [List.append_assoc]
      exact List.drop_left w1 (('{' :: t) ++ w2)
    have harg : (w1 ++ ('{' :: t) ++ w2).length - 1 - w2.length - w1.length + 1
        = ('{' :: t).length := by
      simp only [List.length_append, List.length_cons]
      omega
    rw [hdrop, harg, List.take_left]

/-- Claim C2 (amended): on every valid JSON document whose top-level value is
an object — optional insignificant whitespace, the object text from its
opening `\x7b` to its closing `\x7d`, optional whitespace — `recoverJSON`
returns exactly the value `JSON.parse` returns: the brace-span match is the
object text and the direct parse succeeds. -/
theorem recoverJSON_object_agrees_with_parse (raw : String) (v : Json)
    (w1 core w2 : List Char) (hsplit : raw.data = w1 ++ core ++ w2)
    (hw1 : ∀ c ∈ w1, isJsonWs c = true) (hw2 : ∀ c ∈ w2, isJsonWs c = true)
    (h1 : core.head? = some '{') (h2 : core.getLast? = some '}')
    (hcore : parseJSONList core = some v) (hraw : parseJSON raw = some v) :
    recoverJSON raw = parseJSON raw := by
  unfold recoverJSON
  rw [hraw, hsplit, braceSpan_padded w1 core w2 hw1 hw2 h1 h2]
  simp [hcore]

/-- Counterexample to claim C2 as stated: `"[]"` is a valid JSON document
(`JSON.parse` yields the empty array), but it contains no `\x7b...\x7d` span,
so `recoverJSON` returns null rather than a value deep-equal to
`JSON.parse`'s result. -/
theorem recoverJSON_disagrees_on_valid_array :
    parseJSON "[]" = some (Json.arr []) ∧ recoverJSON "[]" = none := by
  constructor
  · rfl
  · rfl

/-- Witness for `recoverJSON_object_agrees_with_parse` at a concrete object
document carrying both leading and trailing whitespace. -/
theorem recoverJSON_object_agrees_witness :
    recoverJSON " \x7b\"a\": true\x7d " = parseJSON " \x7b\"a\": true\x7d " ∧
    parseJSON " \x7b\"a\": true\x7d " = some (Json.obj [("a", Json.bool true)]) :=
  ⟨recoverJSON_object_agrees_with_parse " \x7b\"a\": true\x7d "
    (Json.obj [("a", Json.bool true)]) [' '] ("\x7b\"a\": true\x7d").data [' ']
    rfl (by decide) (by decide) rfl rfl rfl rfl, rfl⟩

/-! ## Template field extraction and splicing (C7, C8)

Texts are represented by their line lists (`Lines`); a string corresponds to
its `split('\n')` decomposition and lines are newline-free.

The splice regex `/^Label:ANY*(?:\n(?:ws*-ws+ANY*|ws*))*$/m` is line
structured: `^Label:ANY*` matches a whole line that starts with `Label:`; each
iteration of the group consumes a newline plus either a dash item
(`ws*-ws+ANY*`) or whitespace filler (`ws*`, which can also swallow further
newlines); the final multiline `$` must land at an end of line.  Because the
regex engine is greedy with backtracking, the leftmost match starts at the
first line beginning with `Label:` and extends over the maximal run of
following lines that are dash items or blank, ending at that run's last line
end.  `String.replace` substitutes `"Label:\n" + block` for exactly that
region.  In the line model: locate the first label line, drop the following
`isContLine` run, and emit `blockLines label block` in place of both.

The insertion branches translate `text.search(/^(A|B|...):/m)` (character
index of the first line starting with one of the anchor labels) and
`text.slice`-based insertion of `"Label:\n" + block + "\n\n"` before that line
(append after `text.trimEnd()` when no anchor exists); when the block is
empty the inserted `"Label:\n"` contributes one empty line. -/

/-- A multi-line text, as its list of lines. -/
abbrev Lines := List String

/-- Whitespace test used for the regex class `\s` (ASCII coverage). -/
def isWS (c : Char) : Bool := c.isWhitespace

/-- Line consisting solely of whitespace (regex alternative `ws*` filling the
line). -/
def isBlankLine (l : String) : Bool := l.data.all isWS

/-- Dash-plus-whitespace test on the de-indented character list. -/
def dashWsCheck : List Char → Bool
  | c :: d :: _ => c = '-' && isWS d
  | _ => false

/-- Line matching `ws*-ws+ANY*`: optional indentation, a dash, at least one
whitespace character, then anything. -/
def isDashItemLine (l : String) : Bool := dashWsCheck (l.data.dropWhile isWS)

/-- Continuation line of a list-field block: dash item or blank filler. -/
def isContLine (l : String) : Bool := isDashItemLine l || isBlankLine l

/-- JavaScript `s.startsWith(p)`. -/
def jsStartsWith (s p : String) : Bool := List.isPrefixOf p.data s.data

/-- Line starting with a non-whitespace character (regex `^\S`). -/
def startsNonWs (l : String) : Bool :=
  match l.data with
  | [] => false
  | c :: _ => !isWS c

/-- Index of the first line starting with `lab`. -/
def labelIdx (lab : String) (ls : Lines) : Option Nat :=
  ls.findIdx? (fun l => jsStartsWith l lab)

/-- Right-trim (whitespace suffix removal). -/
def rstrip (s : String) : String :=
  ⟨(s.data.reverse.dropWhile isWS).reverse⟩

/-- Line-level model of JavaScript `text.trimEnd()`: trailing blank lines
disappear and the last surviving line loses its whitespace suffix; a fully
blank text trims to the empty string (one empty line). -/
def jsTrimEndLines (ls : Lines) : Lines :=
  match ls.reverse.dropWhile isBlankLine with
  | [] => [""]
  | last :: revFront => revFront.reverse ++ [rstrip last]

/-- Source normalisation of an update value:
`value.split('\n').map(trim).filter(Boolean)` then `- `-prefixing each line
that does not already start with a dash. -/
def normalizeFieldLines (value : List String) : List String :=
  ((value.map jsTrim).filter (fun l => l ≠ "")).map
    (fun l => if jsStartsWith l "-" then l else "- " ++ l)

/-- Lines of the block body as substituted into the text (an empty block
still contributes the empty line after `"Label:\n"`). -/
def blockTail (b : List String) : List String :=
  if b.isEmpty then [""] else b

/-- Lines of the substituted region `"Label:\n" + block`. -/
def blockLines (lab : String) (b : List String) : Lines :=
  lab :: blockTail b

/-- Splices one multi-line list field, the common shape of both halves of the
source's `spliceRelationshipFields`: replace the first `lab` block in place,
else insert before the first anchor-label line, else append at the end. -/
def spliceListField (lab : String) (anchors : List String) (value : List String)
    (text : Lines) : Lines :=
  let b := normalizeFieldLines value
  match labelIdx lab text with
  | some i =>
    text.take i ++ blockLines lab b ++ (text.drop (i + 1)).dropWhile isContLine
  | none =>
    match text.findIdx? (fun l => anchors.any (fun a => jsStartsWith l a)) with
    | some k => text.take k ++ blockLines lab b ++ [""] ++ text.drop k
    | none => jsTrimEndLines text ++ [""] ++ blockLines lab b

/-- Update object for `spliceRelationshipFields`.  A field value is the line
list of the JavaScript string; `none` models an absent field and also the
empty string (both are falsy, so the source skips the field either way). -/
structure RelUpdates where
  family : Option (List String)
  relationships : Option (List String)

/-- Source `spliceRelationshipFields(currentText, updates)`: splice the
Relationships field (inserting before Family/Background/Additional notes when
absent), then the Family field (inserting before Background/Additional
notes when absent). -/
def spliceRelationshipFields (text : Lines) (updates : RelUpdates) : Lines :=
  let text1 :=
    match updates.relationships with
    | none => text
    | some v =>
      spliceListField "Relationships:" ["Family:", "Background:", "Additional notes:"]
        v text
  match updates.family with
  | none => text1
  | some v =>
    spliceListField "Family:" ["Background:", "Additional notes:"] v text1

/-- Continuation-line collector of `extractField`: collect trimmed
`ws*-ws+ANY*` lines, stop at the first `^\S` line, silently skip other
(indented or blank) lines. -/
def collectCont : Lines → List String
  | [] => []
  | l :: rest =>
    if isDashItemLine l then jsTrim l :: collectCont rest
    else if startsNonWs l then []
    else collectCont rest

/-- Source `extractField(text, fieldName)`: find the first line starting with
`fieldName:`, trim its same-line remainder, collect `- ` continuation lines;
the result is the value's line list (`[""]` encodes the empty string returned
when the field is missing or empty). -/
def extractField (text : Lines) (fieldName : String) : List String :=
  let lab := fieldName ++ ":"
  match labelIdx lab text with
  | none => [""]
  | some i =>
    let firstLine := jsTrim ⟨(text.getD i "").data.drop lab.length⟩
    let contLines := collectCont (text.drop (i + 1))
    if contLines ≠ [] then
      (if firstLine ≠ "" then [firstLine] else []) ++ contLines
    else [firstLine]

/-- Source `isCharacterEntryFormatted`: true for empty text, else at least 3
of the 13 template labels present (each label test is `/^Label:/m`, a line
starting with the label). -/
def templateLabels : List String :=
  ["Name:", "Age:", "Relationships:", "Physical Appearance:", "Sexuality:",
   "Gender:", "Description:", "Self-Image:", "Motivations/Goals:", "Secrets:",
   "Background:", "Family:", "Additional notes:"]

/-- Character-template formatting test (≥ 3 of the 13 labels). -/
def isCharacterEntryFormatted (text : Lines) : Bool :=
  text = [""] ||
    decide (3 ≤ templateLabels.countP (fun lab => text.any (fun l => jsStartsWith l lab)))

/-! ### List helper lemmas for the splice proofs -/

theorem head?_dropWhile_not {α : Type} (p : α → Bool) :
    ∀ (ls : List α) (x : α), (ls.dropWhile p).head? = some x → p x = false := by
  intro ls
  induction ls with
  | nil => intro x h; simp [List.dropWhile] at h
  | cons a rest ih =>
    intro x h
    by_cases ha : p a = true
    · rw [List.dropWhile_cons, if_pos ha] at h
      exact ih x h
    · rw [List.dropWhile_cons, if_neg ha] at h
      simp at h
      subst h
      simpa using ha

theorem mem_dropWhile_imp_mem {α : Type} (p : α → Bool) :
    ∀ (ls : List α) (x : α), x ∈ ls.dropWhile p → x ∈ ls := by
  intro ls
  induction ls with
  | nil => intro x h; simpa using h
  | cons a rest ih =>
    intro x h
    by_cases ha : p a = true
    · rw [List.dropWhile_cons, if_pos ha] at h
      exact List.mem_cons.mpr (Or.inr (ih x h))
    · rw [List.dropWhile_cons, if_neg ha] at h
      exact h

/-- Token accumulator splitter: maximal runs of non-whitespace characters. -/
def splitWSAux : List Char → List Char → List String
  | [], acc => if acc.isEmpty then [] else [⟨acc.reverse⟩]
  | c :: rest, acc =>
    if isWS c then
      if acc.isEmpty then splitWSAux rest []
      else ⟨acc.reverse⟩ :: splitWSAux rest []
    else splitWSAux rest (c :: acc)

/-- JavaScript `s.trim().split(/\s+/)`: whitespace-separated tokens of the
trimmed string.  Splitting the empty string yields `[""]` (JavaScript returns
one empty token there), so the result is never empty. -/
def trimSplitWS (s : String) : List String :=
  let t := jsTrim s
  if t = "" then [""] else splitWSAux t.data []

/-- Raw oracle proposal (after the source's `typeof ... === 'string'`
narrowing). -/
structure Proposal where
  currentName : String
  proposedName : String
  reason : String
deriving Repr, DecidableEq

/-- Acceptance rule of the `propagateFamilyNames` proposal filter, exactly as
in the source: reject identical names, a current name of more than one part, a
proposed name with no more parts than the current one, or a proposed name
whose trimmed lowercase form does not start with the current name's. -/
def propagateAccepts (p : Proposal) : Bool :=
  if p.currentName = p.proposedName then false
  else if (trimSplitWS p.currentName).length > 1 then false
  else if (trimSplitWS p.proposedName).length ≤ (trimSplitWS p.currentName).length then false
  else jsStartsWith (jsLower (jsTrim p.proposedName)) (jsLower (jsTrim p.currentName))

/-- Source `propagateFamilyNames`, reduced to its state-relevant behaviour:
with fewer than two character entries it returns `[]` without an oracle call,
otherwise it filters the oracle's raw proposals through the validation rule. -/
def propagateFamilyNames (numCharacterEntries : Nat)
    (rawProposals : List Proposal) : List Proposal :=
  if numCharacterEntries < 2 then []
  else rawProposals.filter propagateAccepts

theorem splitWSAux_ne_nil : ∀ (cs acc : List Char),
    (∃ c ∈ cs, isWS c = false) ∨ acc ≠ [] → splitWSAux cs acc ≠ [] := by
  intro cs
  induction cs with
  | nil =>
    intro acc h
    rcases h with h | h
    · obtain ⟨c, hc, _⟩ := h
      simp at hc
    · simp only [splitWSAux]
      rw [if_neg (by simpa using h)]
      simp
  | cons c rest ih =>
    intro acc h
    by_cases hws : isWS c = true
    · by_cases hacc : acc.isEmpty
      · simp only [splitWSAux, hws, if_true, hacc]
        apply ih
        left
        rcases h with h | h
        · obtain ⟨d, hd, hdw⟩ := h
          rcases List.mem_cons.mp hd with hd | hd
          · rw [hd] at hdw; rw [hws] at hdw; exact absurd hdw (by simp)
          · exact ⟨d, hd, hdw⟩
        · exact absurd (by simpa using hacc) h
      · simp only [splitWSAux, hws, if_true, hacc]
        simp
    · have hws' : isWS c = false := by
        cases hx : isWS c
        · rfl
        · exact absurd hx hws
      simp only [splitWSAux, hws', Bool.false_eq_true, if_false]
      exact ih (c :: acc) (Or.inr (by simp))

theorem mem_of_head?_dropWhile {α : Type} (p : α → Bool) (ls : List α) (x : α)
    (h : (ls.dropWhile p).head? = some x) : x ∈ ls := by
  have hmem : x ∈ ls.dropWhile p := by
    cases hd : ls.dropWhile p with
    | nil => rw [hd] at h; simp at h
    | cons a t =>
      rw [hd] at h
      simp at h
      rw [h]
      simp
  exact mem_dropWhile_imp_mem p ls x hmem

theorem trimSplitWS_ne_nil (s : String) : trimSplitWS s ≠ [] := by
  unfold trimSplitWS
  by_cases ht : jsTrim s = ""
  · rw [if_pos ht]; simp
  · rw [if_neg ht]
    apply splitWSAux_ne_nil
    left
    have hrepr : (jsTrim s).data
        = ((s.data.dropWhile Char.isWhitespace).reverse.dropWhile
            Char.isWhitespace).reverse := rfl
    cases hd : (s.data.dropWhile Char.isWhitespace).reverse.dropWhile
        Char.isWhitespace with
    | nil =>
      exfalso
      apply ht
      apply String.ext
      rw [hrepr, hd]
      rfl
    | cons c t =>
      refine ⟨c, ?_, ?_⟩
      · rw [hrepr, hd]
        simp
      · have hx := head?_dropWhile_not Char.isWhitespace
          (s.data.dropWhile Char.isWhitespace).reverse c (by rw [hd]; rfl)
        simpa [isWS] using hx

/-- Claim C5: a proposal survives `propagateFamilyNames` exactly when at
least 2 character entries were passed in, the proposal came from the oracle
output, and (a) `currentName` and `proposedName` differ, (b) `currentName`
has exactly one whitespace-separated part, (c) `proposedName` has strictly
more parts, and (d) `proposedName`'s trimmed lowercase form starts with
`currentName`'s — so any proposal whose current name already has 2 or more
parts, or whose proposed name does not start with the current name, is
rejected. -/
theorem propagateFamilyNames_keeps_iff (chars : Nat) (raw : List Proposal)
    (p : Proposal) :
    p ∈ propagateFamilyNames chars raw ↔
      (2 ≤ chars ∧ p ∈ raw ∧
       p.currentName ≠ p.proposedName ∧
       (trimSplitWS p.currentName).length = 1 ∧
       (trimSplitWS p.currentName).length < (trimSplitWS p.proposedName).length ∧
       jsStartsWith (jsLower (jsTrim p.proposedName))
         (jsLower (jsTrim p.currentName)) = true) := by
  unfold propagateFamilyNames
  by_cases hc : chars < 2
  · rw [if_pos hc]
    simp
    omega
  · rw [if_neg hc]
    rw [List.mem_filter]
    have hlen : 1 ≤ (trimSplitWS p.currentName).length :=
      List.length_pos.mpr (trimSplitWS_ne_nil p.currentName)
    constructor
    · rintro ⟨hmem, hacc⟩
      unfold propagateAccepts at hacc
      by_cases h1 : p.currentName = p.proposedName
      · rw [if_pos h1] at hacc; exact absurd hacc (by simp)
      rw [if_neg h1] at hacc
      by_cases h2 : (trimSplitWS p.currentName).length > 1
      · rw [if_pos h2] at hacc; exact absurd hacc (by simp)
      rw [if_neg h2] at hacc
      by_cases h3 : (trimSplitWS p.proposedName).length ≤ (trimSplitWS p.currentName).length
      · rw [if_pos h3] at hacc; exact absurd hacc (by simp)
      rw [if_neg h3] at hacc
      exact ⟨by omega, hmem, h1, by omega, by omega, hacc⟩
    · rintro ⟨hch, hmem, ha, hb, hcc, hd⟩
      refine ⟨hmem, ?_⟩
      unfold propagateAccepts
      rw [if_neg ha, if_neg (by omega), if_neg (by omega)]
      exact hd

/-- Witness for `propagateFamilyNames_keeps_iff`: a concrete surname-adding
proposal is kept (forward use of the equivalence), and a concrete
surname-stripping proposal is rejected (backward use). -/
theorem propagateFamilyNames_keeps_iff_witness :
    ⟨"Lily", "Lily Copeland", "daughter of Alex Copeland"⟩ ∈
      propagateFamilyNames 2
        [⟨"Lily", "Lily Copeland", "daughter of Alex Copeland"⟩,
         ⟨"Alex Copeland", "Alex", "shorten"⟩] ∧
    (⟨"Alex Copeland", "Alex", "shorten"⟩ : Proposal) ∉
      propagateFamilyNames 2
        [⟨"Lily", "Lily Copeland", "daughter of Alex Copeland"⟩,
         ⟨"Alex Copeland", "Alex", "shorten"⟩] := by
  constructor
  · exact (propagateFamilyNames_keeps_iff 2 _ _).mpr
      ⟨by omega, by decide, by decide, by decide, by decide, by decide⟩
  · intro hmem
    have h := (propagateFamilyNames_keeps_iff 2 _ _).mp hmem
    revert h
    decide

/-! ## Data model and partitioning (C4)

Entry texts use the line representation (`Lines`).  The JavaScript `Set`s of
the partitioner are lists with membership semantics (`Set.has` =
`List.contains`; iteration for fuzzy matching = `List.any`, where duplicates
cannot change the result), and the `Map` is an association list whose
`set`/`has`/`get` follow JavaScript `Map` lookup semantics. -/

/-- Persisted lorebook entry. -/
structure Entry where
  id : String
  category : String
  displayName : String
  keys : List String
  text : Lines
  createdAt : Nat
deriving Repr, DecidableEq

/-- Identified story element (output of the identify pass). -/
structure Element where
  name : String
  category : String
  mergesWith : Option String
deriving Repr, DecidableEq

/-- Drafted-but-unreviewed new entry. -/
structure PendingEntry where
  id : String
  category : String
  displayName : String
  keys : List String
  text : Lines
  confidence : Nat
  createdAt : Nat
deriving Repr, DecidableEq

/-- Proposed identity merge. -/
structure PendingMerge where
  id : String
  newName : String
  newCategory : String
  existingDisplayName : String
  existingKeys : List String
  existingText : Lines
  proposedDisplayName : String
  proposedKeys : List String
  proposedText : Lines
  createdAt : Nat
deriving Repr, DecidableEq

/-- Proposed entry-text update. -/
structure PendingUpdate where
  id : String
  displayName : String
  keys : List String
  category : String
  originalText : Lines
  updatedText : Lines
  isRelationshipUpdate : Bool
  isReformat : Bool
  isNameUpdate : Bool
  proposedDisplayName : Option String
  nameReason : Option String
  createdAt : Nat
deriving Repr, DecidableEq

/-- Scan accumulator state. -/
structure ScanState where
  pendingEntries : List PendingEntry
  pendingMerges : List PendingMerge
  pendingUpdates : List PendingUpdate
  rejectedNames : List String
  dismissedUpdateNames : List String
  rejectedMergeNames : List String
  dismissedReformatNames : List String
  charsSinceLastScan : Nat
deriving Repr, DecidableEq

/-- JavaScript `a || b` on strings (empty string is falsy). -/
def jsOr (a b : String) : String := if a = "" then b else a

/-- Source `fuzzyMatchInSet(name, nameSet, threshold = 0.7)`. -/
def fuzzyMatchInSet (name : String) (nameSet : List String) (threshold : ℚ) : Bool :=
  nameSet.any (fun existing => decide (fuzzyNameScore name existing ≥ threshold))

/-- One candidate step of `fuzzyFindEntry`: check the display name, then every
key, keeping the strictly best score at or above the threshold. -/
def fuzzyFindStep (name : String) (threshold : ℚ)
    (best : Option (Entry × ℚ × String)) (entry : Entry) :
    Option (Entry × ℚ × String) :=
  let dnScore := fuzzyNameScore name entry.displayName
  let best1 :=
    if decide (dnScore ≥ threshold) &&
        (match best with | none => true | some b => decide (dnScore > b.2.1)) then
      some (entry, dnScore, "displayName")
    else best
  entry.keys.foldl (fun b key =>
    let kScore := fuzzyNameScore name key
    if decide (kScore ≥ threshold) &&
        (match b with | none => true | some bb => decide (kScore > bb.2.1)) then
      some (entry, kScore, "key")
    else b) best1

/-- Source `fuzzyFindEntry(name, existingEntries, threshold = 0.7)`. -/
def fuzzyFindEntry (name : String) (existingEntries : List Entry) (threshold : ℚ) :
    Option (Entry × ℚ × String) :=
  existingEntries.foldl (fuzzyFindStep name threshold) none

/-- Exclusion-set lines built by `partitionElements` (case-folded names and
keys of every pending entry and update, pending merges' new names, rejected
names, dismissed update names). -/
def excludeNamesList (st : ScanState) : List String :=
  (st.pendingEntries.flatMap (fun p => jsLower p.displayName :: p.keys.map jsLower)) ++
  (st.pendingUpdates.flatMap (fun u => jsLower u.displayName :: u.keys.map jsLower)) ++
  (st.pendingMerges.map (fun m => jsLower m.newName)) ++
  (st.rejectedNames.map jsLower) ++
  (st.dismissedUpdateNames.map jsLower)

/-- JavaScript-`Map.set` on an association list (overwrite). -/
def mapSet (k : String) (e : Entry) (m : List (String × Entry)) :
    List (String × Entry) :=
  (k, e) :: m.filter (fun kv => kv.1 ≠ k)

/-- The name-to-entry map of `partitionElements`: display names overwrite,
keys are first-writer-wins. -/
def entryByName (existingEntries : List Entry) : List (String × Entry) :=
  existingEntries.foldl (fun m entry =>
    let m1 := if entry.displayName ≠ "" then mapSet (jsLower entry.displayName) entry m else m
    entry.keys.foldl (fun m2 key =>
      if (m2.lookup (jsLower key)).isSome then m2
      else mapSet (jsLower key) entry m2) m1) []

/-- Exclusion test applied to each element: exact (case-folded) membership or
fuzzy match (≥ 0.7) in the exclusion set. -/
def isExcludedElement (excl : List String) (el : Element) : Bool :=
  excl.contains (jsLower el.name) || fuzzyMatchInSet el.name excl (7/10)

/-- Classification of a non-excluded element. -/
inductive IncDecision where
  | newElem : IncDecision
  | existingElem (entry : Entry) : IncDecision
  | mergeElem (target : String) (entry : Entry) : IncDecision
deriving Repr, DecidableEq

/-- Routing of one non-excluded element, exactly as in the source: a merge
hint is dropped (brand-new) when the pair was rejected or the resolved target
is already claimed; an unresolvable merge hint falls through to the plain
exact-then-fuzzy resolution against existing entries. -/
def classifyIncluded (mergeTargets : List String) (rejectedPairs : List String)
    (byName : List (String × Entry)) (existingEntries : List Entry)
    (el : Element) : IncDecision :=
  let fallthrough :=
    let matched :=
      match byName.lookup (jsLower el.name) with
      | some e => some e
      | none => (fuzzyFindEntry el.name existingEntries (7/10)).map (fun (r : Entry × ℚ × String) => r.1)
    match matched with
    | some e => IncDecision.existingElem e
    | none => IncDecision.newElem
  match el.mergesWith with
  | none => fallthrough
  | some mw =>
    let mergePairKey := jsLower el.name ++ "->" ++ jsLower mw
    if rejectedPairs.contains mergePairKey then IncDecision.newElem
    else
      let mergeTarget :=
        match byName.lookup (jsLower mw) with
        | some e => some e
        | none => (fuzzyFindEntry mw existingEntries (7/10)).map (fun (r : Entry × ℚ × String) => r.1)
      match mergeTarget with
      | some tgt =>
        if mergeTargets.contains (jsLower (jsOr tgt.displayName mw)) then
          IncDecision.newElem
        else IncDecision.mergeElem (jsOr tgt.displayName mw) tgt
      | none => fallthrough

/-- New-element bucket entry. -/
structure NewElement where
  name : String
  category : String
deriving Repr, DecidableEq

/-- Existing-element bucket entry. -/
structure ExistingElement where
  name : String
  category : String
  entry : Entry
deriving Repr, DecidableEq

/-- Merge-candidate bucket entry. -/
structure MergeElement where
  name : String
  category : String
  mergeTarget : String
  entry : Entry
deriving Repr, DecidableEq

/-- Result of `partitionElements`. -/
structure Partitioned where
  newElements : List NewElement
  existingElements : List ExistingElement
  mergeElements : List MergeElement
deriving Repr, DecidableEq

/-- Element loop of `partitionElements`. -/
def partitionGo (excl : List String) (mergeTargets : List String)
    (rejectedPairs : List String) (byName : List (String × Entry))
    (existingEntries : List Entry) : List Element → Partitioned
  | [] => ⟨[], [], []⟩
  | el :: rest =>
    let r := partitionGo excl mergeTargets rejectedPairs byName existingEntries rest
    if isExcludedElement excl el then r
    else
      match classifyIncluded mergeTargets rejectedPairs byName existingEntries el with
      | IncDecision.newElem =>
        ⟨⟨el.name, el.category⟩ :: r.newElements, r.existingElements, r.mergeElements⟩
      | IncDecision.existingElem e =>
        ⟨r.newElements, ⟨el.name, el.category, e⟩ :: r.existingElements, r.mergeElements⟩
      | IncDecision.mergeElem tgt e =>
        ⟨r.newElements, r.existingElements, ⟨el.name, el.category, tgt, e⟩ :: r.mergeElements⟩

/-- Source `partitionElements(elements, existingEntries, state)`. -/
def partitionElements (elements : List Element) (existingEntries : List Entry)
    (st : ScanState) : Partitioned :=
  partitionGo (excludeNamesList st)
    (st.pendingMerges.map (fun m => jsLower m.existingDisplayName))
    (st.rejectedMergeNames.map jsLower)
    (entryByName existingEntries) existingEntries elements

/-- Claim C4: every identified element lands in exactly one of the three
buckets or is excluded, so the bucket sizes plus the number of excluded
elements always add up to the number of input elements. -/
theorem partitionElements_counts (elements : List Element)
    (existingEntries : List Entry) (st : ScanState) :
    (partitionElements elements existingEntries st).newElements.length +
      (partitionElements elements existingEntries st).existingElements.length +
      (partitionElements elements existingEntries st).mergeElements.length +
      elements.countP (isExcludedElement (excludeNamesList st)) = elements.length := by
  unfold partitionElements
  induction elements with
  | nil => simp [partitionGo]
  | cons el rest ih =>
    simp only [partitionGo, List.countP_cons, List.length_cons]
    by_cases hex : isExcludedElement (excludeNamesList st) el = true
    · rw [if_pos hex]
      simp only [hex, if_true]
      omega
    · rw [if_neg hex]
      have hex' : isExcludedElement (excludeNamesList st) el = false := by
        cases hv : isExcludedElement (excludeNamesList st) el
        · rfl
        · exact absurd hv hex
      simp only [hex', Bool.false_eq_true, if_false]
      cases classifyIncluded
          (st.pendingMerges.map (fun m => jsLower m.existingDisplayName))
          (st.rejectedMergeNames.map jsLower)
          (entryByName existingEntries) existingEntries el with
      | newElem => simp only [List.length_cons]; omega
      | existingElem e => simp only [List.length_cons]; omega
      | mergeElem tgt e => simp only [List.length_cons]; omega

/-! ## Merge-phase proposed keys (C6)

The merge phase of `scanForLore` builds each `PendingMerge`'s `proposedKeys`
by `mergeProposedKeys` below: a JavaScript `Set` (insertion-ordered,
first-occurrence deduplication) of the case-folded existing keys, then the
case-folded display name (when non-empty), then the case-folded new element
name; then a casing-restoration map (the new name verbatim for its own slot,
else the first original key with the same case-folding when non-empty, else
the display name for its slot, else the folded key), capped with
`.slice(0, 6)`. -/

/-- Append an element unless already present (JavaScript `Set.add`). -/
def addIfAbsent (x : String) (l : List String) : List String :=
  if l.contains x then l else l ++ [x]

/-- Insertion-ordered case-folded union of existing keys, display name and
new element name. -/
def mergeKeysSetList (entry : Entry) (name : String) : List String :=
  let base := entry.keys.foldl (fun acc k => addIfAbsent (jsLower k) acc) []
  let s1 :=
    if entry.displayName ≠ "" then addIfAbsent (jsLower entry.displayName) base
    else base
  addIfAbsent (jsLower name) s1

/-- Casing restoration of one folded key. -/
def restoreKeyCasing (entry : Entry) (name : String) (k : String) : String :=
  let original := entry.keys.find? (fun ek => jsLower ek = k)
  if k = jsLower name then name
  else
    match original with
    | some o =>
      if o ≠ "" then o
      else if k = jsLower entry.displayName then entry.displayName else k
    | none => if k = jsLower entry.displayName then entry.displayName else k

/-- The merge phase's proposed key set for one identity-merge candidate. -/
def mergeProposedKeys (entry : Entry) (name : String) : List String :=
  ((mergeKeysSetList entry name).map (restoreKeyCasing entry name)).take 6

theorem toNat_ofNat_valid {n : Nat} (h : n.isValidChar) :
    (Char.ofNat n).toNat = n := by
  rw [Char.ofNat, dif_pos h]
  rfl

theorem toLower_idem (c : Char) : Char.toLower (Char.toLower c) = Char.toLower c := by
  unfold Char.toLower
  by_cases h : c.toNat ≥ 65 ∧ c.toNat ≤ 90
  · rw [if_pos h]
    have hv : (c.toNat + 32).isValidChar := Or.inl (by omega)
    rw [if_neg (by rw [toNat_ofNat_valid hv]; omega)]
  · rw [if_neg h, if_neg h]

theorem jsLower_idem (s : String) : jsLower (jsLower s) = jsLower s := by
  unfold jsLower
  apply String.ext
  show (s.data.map Char.toLower).map Char.toLower = s.data.map Char.toLower
  rw [List.map_map]
  exact List.map_congr_left (fun c _ => toLower_idem c)

theorem mem_addIfAbsent {x k : String} {l : List String}
    (h : k ∈ addIfAbsent x l) : k ∈ l ∨ k = x := by
  unfold addIfAbsent at h
  by_cases hc : l.contains x
  · rw [if_pos hc] at h
    exact Or.inl h
  · rw [if_neg hc] at h
    rcases List.mem_append.mp h with h | h
    · exact Or.inl h
    · exact Or.inr (by simpa using h)

theorem self_mem_addIfAbsent (x : String) (l : List String) :
    x ∈ addIfAbsent x l := by
  unfold addIfAbsent
  by_cases hc : l.contains x
  · rw [if_pos hc]
    exact List.mem_of_elem_eq_true hc
  · rw [if_neg hc]
    simp

theorem addIfAbsent_length {x : String} {l : List String} :
    (addIfAbsent x l).length ≤ l.length + 1 := by
  unfold addIfAbsent
  by_cases hc : l.contains x
  · rw [if_pos hc]; omega
  · rw [if_neg hc]; simp

theorem mergeKeysSetList_lower (entry : Entry) (name : String) :
    ∀ k ∈ mergeKeysSetList entry name, jsLower k = k := by
  have hbase : ∀ (ks : List String) (acc : List String),
      (∀ k ∈ acc, jsLower k = k) →
      ∀ k ∈ ks.foldl (fun a kk => addIfAbsent (jsLower kk) a) acc, jsLower k = k := by
    intro ks
    induction ks with
    | nil => intro acc hacc k hk; exact hacc k hk
    | cons a rest ih =>
      intro acc hacc k hk
      refine ih (addIfAbsent (jsLower a) acc) ?_ k hk
      intro kk hkk
      rcases mem_addIfAbsent hkk with hkk | hkk
      · exact hacc kk hkk
      · rw [hkk]; exact jsLower_idem a
  intro k hk
  unfold mergeKeysSetList at hk
  rcases mem_addIfAbsent hk with hk | hk
  · by_cases hdn : entry.displayName ≠ ""
    · rw [if_pos hdn] at hk
      rcases mem_addIfAbsent hk with hk | hk
      · exact hbase entry.keys [] (by simp) k hk
      · rw [hk]; exact jsLower_idem entry.displayName
    · rw [if_neg hdn] at hk
      exact hbase entry.keys [] (by simp) k hk
  · rw [hk]; exact jsLower_idem name

theorem jsLower_restore (entry : Entry) (name : String) (k : String)
    (hk : jsLower k = k) : jsLower (restoreKeyCasing entry name k) = k := by
  unfold restoreKeyCasing
  by_cases h1 : k = jsLower name
  · rw [if_pos h1]
    exact h1.symm
  · rw [if_neg h1]
    cases hf : entry.keys.find? (fun ek => jsLower ek = k) with
    | some o =>
      have ho : jsLower o = k := by
        have := List.find?_some hf
        simpa using this
      show jsLower (if o ≠ "" then o
        else if k = jsLower entry.displayName then entry.displayName else k) = k
      by_cases ho' : o ≠ ""
      · rw [if_pos ho']
        exact ho
      · rw [if_neg ho']
        by_cases h2 : k = jsLower entry.displayName
        · rw [if_pos h2]
          exact h2.symm
        · rw [if_neg h2]
          exact hk
    | none =>
      show jsLower (if k = jsLower entry.displayName then entry.displayName else k) = k
      by_cases h2 : k = jsLower entry.displayName
      · rw [if_pos h2]
        exact h2.symm
      · rw [if_neg h2]
        exact hk

theorem restore_eq_name_imp (entry : Entry) (name k : String)
    (hk : jsLower k = k) (hrk : restoreKeyCasing entry name k = name) :
    k = jsLower name := by
  by_cases h1 : k = jsLower name
  · exact h1
  · exfalso
    unfold restoreKeyCasing at hrk
    rw [if_neg h1] at hrk
    cases hf : entry.keys.find? (fun ek => jsLower ek = k) with
    | some o =>
      simp only [hf] at hrk
      have ho : jsLower o = k := by simpa using List.find?_some hf
      by_cases ho' : o ≠ ""
      · rw [if_pos ho'] at hrk
        subst hrk
        exact h1 ho.symm
      · rw [if_neg ho'] at hrk
        by_cases h2 : k = jsLower entry.displayName
        · rw [if_pos h2] at hrk
          rw [hrk] at h2
          exact h1 h2
        · rw [if_neg h2] at hrk
          apply h1
          rw [hrk] at hk ⊢
          exact hk.symm
    | none =>
      simp only [hf] at hrk
      by_cases h2 : k = jsLower entry.displayName
      · rw [if_pos h2] at hrk
        rw [hrk] at h2
        exact h1 h2
      · rw [if_neg h2] at hrk
        apply h1
        rw [hrk] at hk ⊢
        exact hk.symm

/-- Claim C6 (amended): a merge candidate's proposed keys are the first six
entries, in insertion order, of the case-deduplicated union of the existing
entry's keys, its display name, and the new element name (conjunct 2:
case-folding the proposed keys gives exactly that truncated union), the list
never exceeds 6 keys (conjunct 1), and the new element name appears,
verbatim, among the proposed keys exactly when its case-folded form is one of
the first six entries of the union (conjunct 3).  Since the case-folded new
name is appended last when no existing key or display name already carries
it, it is in particular always kept when the union has at most 6 entries, and
it is dropped by the `slice(0, 6)` cap when six distinct other folded keys
precede it — but it survives, restored to verbatim casing, when an existing
key already equals its case-folded form. -/
theorem mergeProposedKeys_spec (entry : Entry) (name : String) :
    (mergeProposedKeys entry name).length ≤ 6 ∧
    (mergeProposedKeys entry name).map jsLower
      = (mergeKeysSetList entry name).take 6 ∧
    (name ∈ mergeProposedKeys entry name ↔
      jsLower name ∈ (mergeKeysSetList entry name).take 6) := by
  refine ⟨?_, ?_, ?_, ?_⟩
  · unfold mergeProposedKeys
    rw [List.length_take]
    omega
  · unfold mergeProposedKeys
    rw [← List.map_take, List.map_map]
    nth_rewrite 2 [← List.map_id (List.take 6 (mergeKeysSetList entry name))]
    apply List.map_congr_left
    intro k hk
    show jsLower (restoreKeyCasing entry name k) = id k
    exact jsLower_restore entry name k
      (mergeKeysSetList_lower entry name k (List.mem_of_mem_take hk))
  · intro hmem
    unfold mergeProposedKeys at hmem
    rw [← List.map_take] at hmem
    rcases List.mem_map.mp hmem with ⟨k, hk6, hrk⟩
    have hkl : jsLower k = k :=
      mergeKeysSetList_lower entry name k (List.mem_of_mem_take hk6)
    rw [← restore_eq_name_imp entry name k hkl hrk]
    exact hk6
  · intro h6
    unfold mergeProposedKeys
    have hres : restoreKeyCasing entry name (jsLower name) = name := by
      unfold restoreKeyCasing
      rw [if_pos rfl]
    have hmem2 := List.mem_map_of_mem (restoreKeyCasing entry name) h6
    rw [hres, List.map_take] at hmem2
    exact hmem2

/-- Witness for `mergeProposedKeys_spec` at the spec's scenario-B inputs:
existing entry "Hooded Figure" with key "hooded figure", new name
"Elena Voss"; the new name is among the proposed keys together with the
original key. -/
theorem mergeProposedKeys_spec_witness :
    mergeProposedKeys
        ⟨"e1", "character", "Hooded Figure", ["hooded figure"],
          ["A mysterious figure."], 0⟩ "Elena Voss"
      = ["hooded figure", "Elena Voss"] ∧
    "Elena Voss" ∈ mergeProposedKeys
        ⟨"e1", "character", "Hooded Figure", ["hooded figure"],
          ["A mysterious figure."], 0⟩ "Elena Voss" := by
  constructor
  · decide
  · exact (mergeProposedKeys_spec
      ⟨"e1", "character", "Hooded Figure", ["hooded figure"],
        ["A mysterious figure."], 0⟩ "Elena Voss").2.2.mpr (by decide)

/-! ## Organize orchestrator (C10)

The oracle-backed steps are abstracted as response functions supplying the
parsed JSON of each batch call (`classifyUnknownEntries` batches of 12,
`confirmAndMergeDuplicates` batches of 5); the heuristic
`classifyEntryType` — a pure regex-scoring function of the entry text whose
internals no claim here depends on — is an explicit function parameter.
JavaScript object/`Map` assignment is modelled by last-binding lookup over the
insertion sequence.  The JavaScript array sort (stable, by descending
similarity) is modelled by a stable insertion sort: stable sorts of the same
list under the same total preorder coincide. -/

/-- The five fixed categories. -/
def ALL_CATEGORIES : List String :=
  ["character", "location", "item", "faction", "concept"]

/-- Fuel-indexed chunking (`slice(i, i + n)` batching). -/
def chunksAux {α : Type} (n : Nat) : Nat → List α → List (List α)
  | 0, _ => []
  | _ + 1, [] => []
  | fuel + 1, l => l.take n :: chunksAux n fuel (l.drop n)

/-- Parsed per-entry result of one `classifyUnknownEntries` oracle batch. -/
structure ClassifyResult where
  index : Int
  type : String
  confidence : Int
deriving Repr, DecidableEq

/-- Accepted LLM classification. -/
structure ClassifiedUnknown where
  entryId : String
  displayName : String
  suggestedType : String
  confidence : Int
deriving Repr, DecidableEq

/-- Acceptance of one oracle classification result against its batch: the
1-based index (`c.index || 1`) must land in the batch, the type must be one of
the five categories, and the confidence must be at least 3. -/
def classifyOne (batch : List Entry) (c : ClassifyResult) : Option ClassifiedUnknown :=
  let idx : Int := (if c.index = 0 then (1 : Int) else c.index) - 1
  if idx < 0 then none
  else
    match batch.get? idx.toNat with
    | none => none
    | some e =>
      if ALL_CATEGORIES.contains c.type then
        if (3 : Int) ≤ c.confidence then
          some ⟨e.id, e.displayName, c.type, c.confidence⟩
        else none
      else none

/-- Source `classifyUnknownEntries`: batches of 12, each batch's oracle
results filtered by `classifyOne`. -/
def classifyUnknownEntries (unknowns : List Entry)
    (resp : Nat → List ClassifyResult) : List ClassifiedUnknown :=
  (chunksAux 12 unknowns.length unknowns).enum.flatMap (fun bp =>
    (resp bp.1).filterMap (classifyOne bp.2))

/-- Duplicate candidate pair. -/
structure DupCandidate where
  entryA : Entry
  entryB : Entry
  similarity : ℚ
  reason : String
deriving Repr, DecidableEq

/-- Insertion-ordered case-folded key set of an entry. -/
def dedupLower (ks : List String) : List String :=
  ks.foldl (fun acc k => addIfAbsent (jsLower k) acc) []

/-- Similarity score and reason of one candidate pair (name rules first, then
the Jaccard key-overlap rule, which can only raise the score and supplies a
reason only when none was set). -/
def dupScore (a b : Entry) : ℚ × String :=
  let nameA := jsTrim (jsLower a.displayName)
  let nameB := jsTrim (jsLower b.displayName)
  let base : ℚ × String :=
    if nameA = nameB then (1, "Exact name match")
    else if jsIncludes nameA nameB || jsIncludes nameB nameA then
      (4/5, "Name substring match")
    else if nameA.length ≤ 20 && nameB.length ≤ 20 &&
        levenshteinDistance nameA.data nameB.data ≤ 2 then
      (7/10, "Similar names (edit distance " ++
        toString (levenshteinDistance nameA.data nameB.data) ++ ")")
    else (0, "")
  let keysA := dedupLower a.keys
  let keysB := dedupLower b.keys
  if keysA.length > 0 && keysB.length > 0 then
    let intersection := (keysA.filter (fun k => keysB.contains k)).length
    let unionSize := (keysA ++ keysB.filter (fun k => ¬ keysA.contains k)).length
    let jaccard : ℚ := (intersection : ℚ) / (unionSize : ℚ)
    if jaccard > 2/5 then
      (max base.1 (1/2 + jaccard * (3/10)),
        jsOr base.2 ("Key overlap (" ++ toString (round (jaccard * 100)) ++ "%)"))
    else base
  else base

/-- Ordered pairs `(i, j)` with `i < j` of the double loop. -/
def allPairs {α : Type} : List α → List (α × α)
  | [] => []
  | x :: rest => rest.map (fun y => (x, y)) ++ allPairs rest

/-- Stable descending insertion by similarity. -/
def insertDesc (c : DupCandidate) : List DupCandidate → List DupCandidate
  | [] => [c]
  | d :: rest =>
    if c.similarity < d.similarity then d :: insertDesc c rest else c :: d :: rest

/-- Stable sort by descending similarity (unique among stable sorts, hence
equal to the JavaScript `sort` result). -/
def sortBySimDesc (l : List DupCandidate) : List DupCandidate :=
  l.foldr insertDesc []

/-- Source `findDuplicateCandidates`. -/
def findDuplicateCandidates (entries : List Entry) : List DupCandidate :=
  sortBySimDesc ((allPairs entries).filterMap (fun ab =>
    let nameA := jsTrim (jsLower ab.1.displayName)
    let nameB := jsTrim (jsLower ab.2.displayName)
    if nameA = "" ∨ nameB = "" then none
    else
      let sr := dupScore ab.1 ab.2
      if sr.1 > 0 then some ⟨ab.1, ab.2, sr.1, sr.2⟩ else none))

/-- Parsed per-pair result of one `confirmAndMergeDuplicates` oracle batch. -/
structure DupResult where
  pair : Int
  isDuplicate : Bool
  keepIndexB : Bool
  mergedText : Option Lines
  mergedKeys : Option (List String)
  reason : Option String
deriving Repr, DecidableEq

/-- Confirmed duplicate merge. -/
structure ConfirmedMerge where
  keepEntry : Entry
  removeEntry : Entry
  mergedText : Lines
  mergedKeys : List String
  reason : String
deriving Repr, DecidableEq

/-- JavaScript `o || d` where `o` is an optional string field. -/
def jsOrOpt (o : Option String) (d : String) : String :=
  match o with
  | some s => if s = "" then d else s
  | none => d

/-- Acceptance of one oracle duplicate-confirmation result against its batch:
non-duplicates and out-of-range pair numbers (`(r.pair || 1) - 1`) are
dropped; `keepIndex` `"B"` swaps the pair; missing merged text/keys default to
the kept entry's. -/
def confirmOne (batch : List DupCandidate) (r : DupResult) : Option ConfirmedMerge :=
  if ¬ r.isDuplicate then none
  else
    let pairIdx : Int := (if r.pair = 0 then (1 : Int) else r.pair) - 1
    if pairIdx < 0 then none
    else
      match batch.get? pairIdx.toNat with
      | none => none
      | some cand =>
        let keep := if r.keepIndexB then cand.entryB else cand.entryA
        let remove := if r.keepIndexB then cand.entryA else cand.entryB
        some ⟨keep, remove,
          (match r.mergedText with | some t => t | none => keep.text),
          (match r.mergedKeys with | some ks => ks | none => keep.keys),
          jsOrOpt r.reason cand.reason⟩

/-- Source `confirmAndMergeDuplicates`: batches of 5, each batch's oracle
results filtered by `confirmOne`. -/
def confirmAndMergeDuplicates (candidates : List DupCandidate)
    (resp : Nat → List DupResult) : List ConfirmedMerge :=
  (chunksAux 5 candidates.length candidates).enum.flatMap (fun bp =>
    (resp bp.1).filterMap (confirmOne bp.2))

/-- Cleanup proposal. -/
inductive Cleanup where
  | duplicate (id : String) (keepId keepName : String) (keepKeys : List String)
      (keepText : Lines) (removeId removeName : String)
      (removeKeys : List String) (removeText : Lines)
      (mergedText : Lines) (mergedKeys : List String) (reason : String) : Cleanup
  | recat (id : String) (ctype : String) (entryId : String)
      (displayName : String) (currentCategory : String)
      (currentCategoryId : String) (proposedCategory : String)
      (proposedType : String) (proposedCategoryId : Option String) : Cleanup
deriving Repr, DecidableEq

/-- Proposal identifier. -/
def Cleanup.cid : Cleanup → String
  | .duplicate i _ _ _ _ _ _ _ _ _ _ _ => i
  | .recat i _ _ _ _ _ _ _ _ => i

/-- The deterministic composite key that a cleanup's identifier is built
from: its type tag and the identifiers (and, for recategorisations, the
proposed type) of the entries involved. -/
def cleanupKey : Cleanup → String
  | .duplicate _ keepId _ _ _ removeId _ _ _ _ _ _ => "dup_" ++ keepId ++ "_" ++ removeId
  | .recat _ ctype entryId _ _ _ _ proposedType _ =>
      ctype ++ "_" ++ entryId ++ "_" ++ proposedType

/-- Last-binding lookup (JavaScript `Map.get` / object access after a
sequence of assignments). -/
def mapGetLast (seq : List (String × String)) (k : String) : Option String :=
  seq.reverse.lookup k

/-- Fixed category display names per classified type. -/
def typeToExpectedCatName (t : String) : String :=
  if t = "character" then "Characters"
  else if t = "location" then "Locations"
  else if t = "item" then "Items"
  else if t = "faction" then "Factions"
  else if t = "concept" then "Concepts"
  else ""

/-- Source `organizeLorebook`: classify all entries (heuristic, LLM fallback
for unknowns), confirm the top-15 duplicate candidates in oracle batches, and
propose `legacy-move`/`recategorize` cleanups; every cleanup carries its
deterministic composite id and dismissed ids are skipped. -/
def organizeLorebook (entries : List Entry) (dismissedCleanupIds : List String)
    (classifyFn : Lines → String → String)
    (classifyResp : Nat → List ClassifyResult)
    (dupResp : Nat → List DupResult)
    (categoryMap : List (String × String)) : List Cleanup :=
  let dismissedSet := dismissedCleanupIds
  let unknowns := entries.filter (fun e => classifyFn e.text e.displayName = "unknown")
  let heuristicPairs := (entries.filter
      (fun e => classifyFn e.text e.displayName ≠ "unknown")).map
    (fun e => (e.id, classifyFn e.text e.displayName))
  let llmPairs := (classifyUnknownEntries unknowns classifyResp).map
    (fun c => (c.entryId, c.suggestedType))
  let classifications := heuristicPairs ++ llmPairs
  let dupCandidates := findDuplicateCandidates entries
  let confirmed := confirmAndMergeDuplicates (dupCandidates.take 15) dupResp
  let dupCleanups := confirmed.filterMap (fun m =>
    let cleanupId := "dup_" ++ m.keepEntry.id ++ "_" ++ m.removeEntry.id
    if dismissedSet.contains cleanupId then none
    else some (Cleanup.duplicate cleanupId
      m.keepEntry.id m.keepEntry.displayName m.keepEntry.keys m.keepEntry.text
      m.removeEntry.id m.removeEntry.displayName m.removeEntry.keys m.removeEntry.text
      m.mergedText m.mergedKeys m.reason))
  let catNameToId := categoryMap.map (fun kv => (jsLower kv.2, kv.1))
  let loreCreatorCatId := mapGetLast catNameToId "lore creator"
  let recatCleanups := entries.filterMap (fun e =>
    match mapGetLast classifications e.id with
    | none => none
    | some classifiedType =>
      let currentCatId := e.category
      let currentCatName :=
        if currentCatId ≠ "" then
          (match mapGetLast categoryMap currentCatId with
           | some n => n
           | none => "")
        else ""
      let expectedCatName := typeToExpectedCatName classifiedType
      let expectedCatId := mapGetLast catNameToId (jsLower expectedCatName)
      if currentCatId ≠ "" ∧ some currentCatId = expectedCatId then none
      else
        let isLegacy := currentCatId = "" ∨ loreCreatorCatId = some currentCatId
        let cleanupType := if isLegacy then "legacy-move" else "recategorize"
        let cleanupId := cleanupType ++ "_" ++ e.id ++ "_" ++ classifiedType
        if dismissedSet.contains cleanupId then none
        else some (Cleanup.recat cleanupId cleanupType e.id e.displayName
          (jsOr currentCatName "(uncategorized)") currentCatId
          expectedCatName classifiedType expectedCatId))
  dupCleanups ++ recatCleanups

/-- Claim C10: every cleanup returned by `organizeLorebook` carries an id
equal to the deterministic composite key of its type and the entry ids
involved, and no returned cleanup's id is in the caller-supplied dismissed
set — re-running Organize with the same dismissed ids never re-proposes a
dismissed cleanup. -/
theorem organizeLorebook_cleanup_ids (entries : List Entry)
    (dismissedCleanupIds : List String) (classifyFn : Lines → String → String)
    (classifyResp : Nat → List ClassifyResult) (dupResp : Nat → List DupResult)
    (categoryMap : List (String × String)) (c : Cleanup)
    (hc : c ∈ organizeLorebook entries dismissedCleanupIds classifyFn
      classifyResp dupResp categoryMap) :
    c.cid = cleanupKey c ∧ dismissedCleanupIds.contains c.cid = false := by
  unfold organizeLorebook at hc
  rcases List.mem_append.mp hc with hmem | hmem
  · rcases List.mem_filterMap.mp hmem with ⟨m, _, hf⟩
    by_cases hd : dismissedCleanupIds.contains
        ("dup_" ++ m.keepEntry.id ++ "_" ++ m.removeEntry.id)
    · rw [if_pos hd] at hf
      exact absurd hf (by simp)
    · rw [if_neg hd] at hf
      have hc0 := Option.some.inj hf
      rw [← hc0]
      refine ⟨rfl, ?_⟩
      simp only [Cleanup.cid]
      cases hcon : dismissedCleanupIds.contains
          ("dup_" ++ m.keepEntry.id ++ "_" ++ m.removeEntry.id)
      · rfl
      · exact absurd hcon hd
  · rcases List.mem_filterMap.mp hmem with ⟨e, _, hf⟩
    revert hf
    cases mapGetLast (((entries.filter
        (fun e => classifyFn e.text e.displayName ≠ "unknown")).map
        (fun e => (e.id, classifyFn e.text e.displayName))) ++
        ((classifyUnknownEntries (entries.filter
          (fun e => classifyFn e.text e.displayName = "unknown")) classifyResp).map
          (fun c => (c.entryId, c.suggestedType)))) e.id with
    | none => intro hf; exact absurd hf (by simp)
    | some classifiedType =>
      intro hf
      simp only [] at hf
      by_cases hskip : e.category ≠ "" ∧ some e.category
          = mapGetLast (categoryMap.map (fun kv => (jsLower kv.2, kv.1)))
            (jsLower (typeToExpectedCatName classifiedType))
      · rw [if_pos hskip] at hf
        exact absurd hf (by simp)
      · rw [if_neg hskip] at hf
        set cleanupType := if (e.category = "" ∨
            mapGetLast (categoryMap.map (fun kv => (jsLower kv.2, kv.1)))
              "lore creator" = some e.category) then "legacy-move"
          else "recategorize" with hct
        by_cases hd : dismissedCleanupIds.contains
            (cleanupType ++ "_" ++ e.id ++ "_" ++ classifiedType)
        · rw [if_pos hd] at hf
          exact absurd hf (by simp)
        · rw [if_neg hd] at hf
          have hc0 := Option.some.inj hf
          rw [← hc0]
          refine ⟨rfl, ?_⟩
          simp only [Cleanup.cid]
          cases hcon : dismissedCleanupIds.contains
              (cleanupType ++ "_" ++ e.id ++ "_" ++ classifiedType)
          · rfl
          · exact absurd hcon hd

/-- The duplicate cleanup produced by organizing two entries both displaying
the name `Ann`. -/
def sampleDupCleanup : Cleanup :=
  Cleanup.duplicate "dup_e1_e2" "e1" "Ann" [] ["Ann is here"] "e2" "Ann"
    [] ["Ann is here"] ["Ann is here"] [] "Exact name match"

/-- C10 at a concrete run: two same-named entries yield one confirmed
duplicate cleanup whose id is the composite key and is not dismissed. -/
theorem organizeLorebook_cleanup_ids_witness :
    sampleDupCleanup.cid = cleanupKey sampleDupCleanup ∧
      ([] : List String).contains sampleDupCleanup.cid = false :=
  organizeLorebook_cleanup_ids
    [⟨"e1", "c1", "Ann", [], ["Ann is here"], 0⟩,
     ⟨"e2", "c1", "Ann", [], ["Ann is here"], 0⟩] []
    (fun _ _ => "character") (fun _ => [])
    (fun _ => [⟨1, true, false, none, none, none⟩])
    [("c1", "Characters")] sampleDupCleanup (by decide)

/-! ## Scan orchestrator (C1, C6)

`scanForLore` receives its state argument as a mutable JavaScript object; the
claim under test is about object identity, so states live in an explicit heap
of addresses and `JSON.parse(JSON.stringify(state))` is an allocation of a
fresh address holding the same value.  Every LLM-backed subroutine the scan
awaits (`identifyLoreElements`, `generateLoreEntryFromElement`,
`detectEntryUpdate`, `updateRelationshipFields`, `enrichAndReformatEntry`,
the raw proposals inside `propagateFamilyNames`), together with `generateId`
and `Date.now`, is abstracted as an oracle — the theorems hold for every
oracle, hence for every provider behaviour, including failures (`none`
models a rejected promise and the falsy empty result).  The text heuristic
`looksLikeCharacterEntry` is a pure function of the entry text none of the
claims depend on; it is passed as a function parameter.  Pushes within one
pass are accumulated functionally and written back to the clone's address at
the end of the pass; addresses other than the clone's are untouched by every
write, exactly as in the source. -/

/-- Scan-relevant settings. -/
structure Settings where
  autoDetectUpdates : Bool
  relationshipsOnly : Bool
deriving Repr, DecidableEq

/-- Oracle abstraction of the scan's awaited subroutines and environment. -/
structure ScanOracle where
  identify : List Element
  genEntry : String → String → Option PendingEntry
  detectUpdate : String → Lines → Option Lines
  relUpdate : String → Lines → Option RelUpdates
  reformat : String → Lines → Option Lines
  rawProposals : List Proposal
  genId : Nat → String
  now : Nat

/-- Scan summary counters. -/
structure ScanSummary where
  generated : Nat
  mergesFound : Nat
  updatesFound : Nat
  relationshipUpdatesFound : Nat
  reformatsFound : Nat
  nameProposals : Nat
deriving Repr, DecidableEq

/-- Scan return value; the state is returned by address. -/
structure ScanResult where
  stateAddr : Nat
  error : Option String
  noResults : Bool
  summary : Option ScanSummary
deriving Repr, DecidableEq

/-- Object store: addresses are identities of state objects. -/
structure Heap where
  mem : Nat → ScanState
  next : Nat

/-- Dereference an address. -/
def readH (h : Heap) (a : Nat) : ScanState := h.mem a

/-- Mutate the object at an address. -/
def writeH (h : Heap) (a : Nat) (s : ScanState) : Heap :=
  ⟨fun x => if x = a then s else h.mem x, h.next⟩

/-- Allocate a fresh object (`JSON.parse(JSON.stringify(...))` deep copy). -/
def allocH (h : Heap) (s : ScanState) : Heap × Nat :=
  (⟨fun x => if x = h.next then s else h.mem x, h.next + 1⟩, h.next)

/-- JavaScript `text.length` of a multi-line text (lines joined by single
newlines). -/
def textLength (t : Lines) : Nat :=
  (t.map String.length).sum + (t.length - 1)

/-- Per-scan budget shared by the merge, update and reformat phases. -/
def MAX_UPDATES_PER_SCAN : Nat := 3

/-- Per-scan budget of relationship updates (Pass 3b). -/
def MAX_RELATIONSHIP_UPDATES : Nat := 3

/-- Pass 2: generate an entry per new element; non-null entries with
non-empty text are appended to the clone's pending entries. -/
def runGeneratePass (o : ScanOracle) (newEls : List NewElement)
    (st : ScanState) : ScanState × Nat :=
  newEls.foldl (fun acc elem =>
    match o.genEntry elem.name elem.category with
    | some entry =>
      if 0 < textLength entry.text then
        ({ acc.1 with pendingEntries := acc.1.pendingEntries ++ [entry] }, acc.2 + 1)
      else acc
    | none => acc) (st, 0)

/-- Merge phase body for the capped merge candidates: every candidate yields
a pending merge (a failed or empty update detection falls back to the
existing text); `acc.2.1` numbers the `generateId` calls, `acc.2.2` counts
merges found. -/
def runMergePass (o : ScanOracle) (toMerge : List MergeElement)
    (st : ScanState) (ctr : Nat) : ScanState × Nat × Nat :=
  toMerge.foldl (fun acc elem =>
    let ut := o.detectUpdate (jsOr elem.entry.displayName elem.mergeTarget) elem.entry.text
    let pm : PendingMerge :=
      { id := o.genId acc.2.1
        newName := elem.name
        newCategory := elem.category
        existingDisplayName := jsOr elem.entry.displayName elem.mergeTarget
        existingKeys := elem.entry.keys
        existingText := elem.entry.text
        proposedDisplayName := elem.name
        proposedKeys := mergeProposedKeys elem.entry elem.name
        proposedText := (match ut with | some t => t | none => elem.entry.text)
        createdAt := o.now }
    ({ acc.1 with pendingMerges := acc.1.pendingMerges ++ [pm] },
      acc.2.1 + 1, acc.2.2 + 1)) (st, ctr, 0)

/-- Pass 3: detect updates for the budgeted existing elements; only truthy
detection results are pushed. -/
def runUpdatePass (o : ScanOracle) (toCheck : List ExistingElement)
    (st : ScanState) (ctr : Nat) : ScanState × Nat × Nat :=
  toCheck.foldl (fun acc elem =>
    match o.detectUpdate (jsOr elem.entry.displayName elem.name) elem.entry.text with
    | some ut =>
      ({ acc.1 with pendingUpdates := acc.1.pendingUpdates ++
          [{ id := o.genId acc.2.1
             displayName := jsOr elem.entry.displayName elem.name
             keys := elem.entry.keys
             category := elem.category
             originalText := elem.entry.text
             updatedText := ut
             isRelationshipUpdate := false
             isReformat := false
             isNameUpdate := false
             proposedDisplayName := none
             nameReason := none
             createdAt := o.now }] },
        acc.2.1 + 1, acc.2.2 + 1)
    | none => acc) (st, ctr, 0)

/-- Pass 3b body (also the relationships-only loop): splice the detected
relationship fields and push an update only when the splice changed the
text. -/
def runRelationshipPass (o : ScanOracle) (chars : List Entry)
    (st : ScanState) (ctr : Nat) : ScanState × Nat × Nat :=
  chars.foldl (fun acc e =>
    match o.relUpdate e.displayName e.text with
    | none => acc
    | some u =>
      let ut := spliceRelationshipFields e.text u
      if ut ≠ e.text then
        ({ acc.1 with pendingUpdates := acc.1.pendingUpdates ++
            [{ id := o.genId acc.2.1
               displayName := e.displayName
               keys := e.keys
               category := "character"
               originalText := e.text
               updatedText := ut
               isRelationshipUpdate := true
               isReformat := false
               isNameUpdate := false
               proposedDisplayName := none
               nameReason := none
               createdAt := o.now }] },
          acc.2.1 + 1, acc.2.2 + 1)
      else acc) (st, ctr, 0)

/-- Pass 4: push a reformat update when the reformatted text is truthy and
differs from the original. -/
def runReformatPass (o : ScanOracle) (chars : List Entry)
    (st : ScanState) (ctr : Nat) : ScanState × Nat × Nat :=
  chars.foldl (fun acc e =>
    match o.reformat e.displayName e.text with
    | none => acc
    | some r =>
      if r ≠ e.text then
        ({ acc.1 with pendingUpdates := acc.1.pendingUpdates ++
            [{ id := o.genId acc.2.1
               displayName := e.displayName
               keys := e.keys
               category := "character"
               originalText := e.text
               updatedText := r
               isRelationshipUpdate := false
               isReformat := true
               isNameUpdate := false
               proposedDisplayName := none
               nameReason := none
               createdAt := o.now }] },
          acc.2.1 + 1, acc.2.2 + 1)
      else acc) (st, ctr, 0)

/-- Common view of existing and pending entries used by Pass 5. -/
structure CharView where
  displayName : String
  keys : List String
  text : Lines
deriving Repr, DecidableEq

/-- View of an existing entry. -/
def charViewOfEntry (e : Entry) : CharView := ⟨e.displayName, e.keys, e.text⟩

/-- View of a pending entry. -/
def charViewOfPending (p : PendingEntry) : CharView := ⟨p.displayName, p.keys, p.text⟩

/-- Join of a field value's line list back into the JavaScript string. -/
def joinLines (v : List String) : String :=
  match v with
  | [] => ""
  | x :: xs => xs.foldl (fun acc l => acc ++ "\n" ++ l) x

/-- Pass 5 proposal-to-entry matching: the extracted `Name` field (falling
back to the display name) or the display name itself equals the proposal's
current name, case-folded. -/
def matchesProposal (p : Proposal) (e : CharView) : Bool :=
  let entryName := jsOr (joinLines (extractField e.text "Name")) e.displayName
  jsLower entryName == jsLower p.currentName ||
    jsLower e.displayName == jsLower p.currentName

/-- Replacement of `/^Name:\s*.*/m`: on the first line starting `Name:`, if
the line's remainder has non-whitespace the match is that whole line; if the
remainder is all whitespace, the greedy `\s*` runs across the newlines of the
following all-whitespace lines into the first line holding non-whitespace,
and `.*` swallows the rest of that line, so all of those lines are replaced
by the single new line. -/
def replaceNameLine (t : Lines) (newName : String) : Lines :=
  match t.findIdx? (fun l => jsStartsWith l "Name:") with
  | none => t
  | some i =>
    let s : String := ⟨(t.getD i "").data.drop 5⟩
    if jsTrim s ≠ "" then t.take i ++ ("Name: " ++ newName) :: t.drop (i + 1)
    else
      let rest := t.drop (i + 1)
      match rest.findIdx? (fun l => jsTrim l != "") with
      | some j => t.take i ++ ("Name: " ++ newName) :: rest.drop (j + 1)
      | none => t.take i ++ ["Name: " ++ newName]

/-- Pass 5: validated family-name proposals become name updates on the first
matching character entry (the source's outer `length >= 2` guard included). -/
def runNamePass (o : ScanOracle) (allChars : List CharView)
    (st : ScanState) (ctr : Nat) : ScanState × Nat × Nat :=
  if allChars.length < 2 then (st, ctr, 0)
  else
    (propagateFamilyNames allChars.length o.rawProposals).foldl (fun acc p =>
      match allChars.find? (matchesProposal p) with
      | none => acc
      | some m =>
        ({ acc.1 with pendingUpdates := acc.1.pendingUpdates ++
            [{ id := o.genId acc.2.1
               displayName := m.displayName
               keys := m.keys
               category := "character"
               originalText := m.text
               updatedText := replaceNameLine m.text p.proposedName
               isRelationshipUpdate := false
               isReformat := false
               isNameUpdate := true
               proposedDisplayName := some p.proposedName
               nameReason := some p.reason
               createdAt := o.now }] },
          acc.2.1 + 1, acc.2.2 + 1)) (st, ctr, 0)

/-- Source `scanForLore(storyText, settings, existingEntries, state, ...)`,
state passed by address.  Short-story and no-result paths return the caller's
address untouched; otherwise the state value is deep-copied to a fresh
address, all pushes land there, and that address is returned. -/
def scanForLore (storyText : String) (settings : Settings)
    (existingEntries : List Entry) (looksLike : Lines → Bool)
    (o : ScanOracle) (h : Heap) (stateAddr : Nat) : Heap × ScanResult :=
  if (jsTrim storyText).length < 100 then
    (h, ⟨stateAddr, some "Not enough story content to analyze", false, none⟩)
  else if settings.relationshipsOnly then
    let input := readH h stateAddr
    let alloc := allocH h input
    let formattedChars := existingEntries.filter (fun e =>
      decide (30 < textLength e.text) && isCharacterEntryFormatted e.text)
    if formattedChars.isEmpty then
      (alloc.1, ⟨stateAddr, none, true, none⟩)
    else
      let pendingNames := input.pendingUpdates.map (fun u => jsLower u.displayName)
      let toRun := formattedChars.filter (fun e =>
        !(pendingNames.contains (jsLower e.displayName)))
      let r := runRelationshipPass o toRun (readH alloc.1 alloc.2) 0
      let h2 := writeH alloc.1 alloc.2 { r.1 with charsSinceLastScan := 0 }
      (h2, ⟨alloc.2, none, r.2.2 == 0, some ⟨0, 0, 0, r.2.2, 0, 0⟩⟩)
  else
    let input := readH h stateAddr
    let elements := o.identify
    if elements.isEmpty then (h, ⟨stateAddr, none, true, none⟩)
    else
      let parts := partitionElements elements existingEntries input
      if parts.newElements.isEmpty && parts.existingElements.isEmpty &&
          parts.mergeElements.isEmpty then
        (h, ⟨stateAddr, none, true, none⟩)
      else
        let alloc := allocH h input
        let ca := alloc.2
        let g := runGeneratePass o parts.newElements (readH alloc.1 ca)
        let h2 := writeH alloc.1 ca g.1
        let mergeCount := min parts.mergeElements.length MAX_UPDATES_PER_SCAN
        let m := runMergePass o (parts.mergeElements.take mergeCount) (readH h2 ca) 0
        let h3 := writeH h2 ca m.1
        let updateBudget := MAX_UPDATES_PER_SCAN - mergeCount
        let u :=
          if !parts.existingElements.isEmpty && settings.autoDetectUpdates &&
              decide (0 < updateBudget) then
            runUpdatePass o (parts.existingElements.take updateBudget)
              (readH h3 ca) m.2.1
          else (readH h3 ca, m.2.1, 0)
        let h4 := writeH h3 ca u.1
        let pendingUpdateNames :=
          (readH h4 ca).pendingUpdates.map (fun x => jsLower x.displayName)
        let formattedChars := existingEntries.filter (fun e =>
          decide (30 < textLength e.text) && isCharacterEntryFormatted e.text &&
          !(pendingUpdateNames.contains (jsLower e.displayName)))
        let r :=
          if !formattedChars.isEmpty && settings.autoDetectUpdates then
            runRelationshipPass o (formattedChars.take MAX_RELATIONSHIP_UPDATES)
              (readH h4 ca) u.2.1
          else (readH h4 ca, u.2.1, 0)
        let h5 := writeH h4 ca r.1
        let st5 := readH h5 ca
        let alreadyPendingNames :=
          st5.pendingUpdates.map (fun x => jsLower x.displayName) ++
          st5.pendingMerges.map (fun x => jsLower x.existingDisplayName) ++
          st5.dismissedReformatNames.map jsLower
        let characterEntries := existingEntries.filter (fun e =>
          decide (30 < textLength e.text) && !isCharacterEntryFormatted e.text &&
          looksLike e.text && !(alreadyPendingNames.contains (jsLower e.displayName)))
        let f :=
          if !characterEntries.isEmpty then
            runReformatPass o (characterEntries.take MAX_UPDATES_PER_SCAN) st5 r.2.1
          else (st5, r.2.1, 0)
        let h6 := writeH h5 ca f.1
        let st6 := readH h6 ca
        let allChars :=
          (existingEntries.filter (fun e =>
            e.text != [""] &&
            (e.category == "character" || looksLike e.text))).map charViewOfEntry ++
          (st6.pendingEntries.filter (fun p => p.category == "character")).map
            charViewOfPending
        let n := runNamePass o allChars st6 f.2.1
        let h7 := writeH h6 ca { n.1 with charsSinceLastScan := 0 }
        (h7, ⟨ca, none, false, some ⟨g.2, m.2.2, u.2.2, r.2.2, f.2.2, n.2.2⟩⟩)

theorem readH_writeH_ne {a c : Nat} (h : Heap) (s : ScanState) (hac : a ≠ c) :
    readH (writeH h c s) a = readH h a := by
  simp [readH, writeH, hac]

theorem readH_allocH_ne {a : Nat} (h : Heap) (s : ScanState) (hne : a ≠ h.next) :
    readH (allocH h s).1 a = readH h a := by
  simp [readH, allocH, hne]

theorem allocH_snd (h : Heap) (s : ScanState) : (allocH h s).2 = h.next := rfl

set_option maxHeartbeats 4000000 in
/-- Claim C1: for every input address and every combination of story text,
settings, existing entries, heuristic and oracle, `scanForLore` never mutates
any pre-existing object — in particular the caller's state argument: after
the call every address allocated before the call (the state argument's
included) holds exactly the value it held before; all pushes and counter
changes land on the freshly allocated copy. -/
theorem scanForLore_state_immutable (storyText : String) (settings : Settings)
    (existingEntries : List Entry) (looksLike : Lines → Bool) (o : ScanOracle)
    (h : Heap) (stateAddr : Nat) (a : Nat) (ha : a < h.next) :
    readH (scanForLore storyText settings existingEntries looksLike o h stateAddr).1 a
      = readH h a := by
  have hne : a ≠ h.next := Nat.ne_of_lt ha
  simp only [scanForLore]
  by_cases c1 : (jsTrim storyText).length < 100
  · rw [if_pos c1]
  · rw [if_neg c1]
    by_cases c2 : settings.relationshipsOnly = true
    · rw [if_pos c2]
      by_cases c3 : (List.filter (fun e =>
          decide (30 < textLength e.text) && isCharacterEntryFormatted e.text)
          existingEntries).isEmpty = true
      · rw [if_pos c3]
        exact readH_allocH_ne _ _ hne
      · rw [if_neg c3]
        exact (readH_writeH_ne _ _ hne).trans (readH_allocH_ne _ _ hne)
    · rw [if_neg c2]
      by_cases c4 : o.identify.isEmpty = true
      · rw [if_pos c4]
      · rw [if_neg c4]
        by_cases c5 : (((partitionElements o.identify existingEntries
            (readH h stateAddr)).newElements.isEmpty &&
            (partitionElements o.identify existingEntries
              (readH h stateAddr)).existingElements.isEmpty) &&
            (partitionElements o.identify existingEntries
              (readH h stateAddr)).mergeElements.isEmpty) = true
        · rw [if_pos c5]
        · rw [if_neg c5]
          exact (readH_writeH_ne _ _ hne).trans ((readH_writeH_ne _ _ hne).trans
            ((readH_writeH_ne _ _ hne).trans ((readH_writeH_ne _ _ hne).trans
            ((readH_writeH_ne _ _ hne).trans ((readH_writeH_ne _ _ hne).trans
            (readH_allocH_ne _ _ hne))))))

/-- The empty scan state. -/
def emptyScanState : ScanState := ⟨[], [], [], [], [], [], [], 0⟩

/-- A story text long enough to pass the 100-character guard. -/
def longStory : String := ⟨List.replicate 120 'x'⟩

/-- An oracle whose every call fails, identifying one brand-new element. -/
def zedOracle : ScanOracle :=
  ⟨[⟨"Zed", "character", none⟩], fun _ _ => none, fun _ _ => none,
   fun _ _ => none, fun _ _ => none, [], fun _ => "", 0⟩

/-- C1 at a concrete run that reaches the deep-copy path: a one-element
identify result on an empty lorebook; the caller's state object at address 0
is unchanged. -/
theorem scanForLore_state_immutable_witness :
    (0 : Nat) < (Heap.mk (fun _ => emptyScanState) 1).next ∧
      readH (scanForLore longStory ⟨true, false⟩ [] (fun _ => false) zedOracle
          ⟨fun _ => emptyScanState, 1⟩ 0).1 0
        = readH ⟨fun _ => emptyScanState, 1⟩ 0 :=
  ⟨by decide,
   scanForLore_state_immutable longStory ⟨true, false⟩ [] (fun _ => false)
     zedOracle ⟨fun _ => emptyScanState, 1⟩ 0 0 (by decide)⟩

/-- The existing entry targeted by the identity merge of the C6
counterexample: six keys already present. -/
def grayEntry : Entry :=
  ⟨"g1", "character", "Gray", ["k1", "k2", "k3", "k4", "k5", "k6"],
   ["Gray, a quiet man."], 0⟩

/-- An oracle identifying one element that merges with `Gray`. -/
def hazelOracle : ScanOracle :=
  ⟨[⟨"Hazel", "character", some "Gray"⟩], fun _ _ => none, fun _ _ => none,
   fun _ _ => none, fun _ _ => none, [], fun _ => "m1", 0⟩

/-- The scan run of the C6 counterexample. -/
def hazelScan : Heap × ScanResult :=
  scanForLore longStory ⟨false, false⟩ [grayEntry] (fun _ => false) hazelOracle
    ⟨fun _ => emptyScanState, 1⟩ 0

set_option maxRecDepth 100000 in
/-- Counterexample to claim C6 as stated: in this scan's merge phase the new
element name `Hazel` (six existing keys plus the display name and the new
name exceed the cap) is NOT among the resulting proposed keys — the
`slice(0, 6)` cap drops the new name, which is appended last to the key
union. -/
theorem scanForLore_merge_drops_new_name :
    (readH hazelScan.1 hazelScan.2.stateAddr).pendingMerges.map
        (fun m => (m.newName, m.proposedKeys))
      = [("Hazel", ["k1", "k2", "k3", "k4", "k5", "k6"])] ∧
    "Hazel" ∉ ["k1", "k2", "k3", "k4", "k5", "k6"] ∧
    "hazel" ∉ ["k1", "k2", "k3", "k4", "k5", "k6"] := by
  refine ⟨by decide, by decide, by decide⟩

end NSV
